import Mathlib

/-!
Verification of the process-lifecycle and stream-protocol core of the
`ccui` repository against its design specification.

The development shallowly embeds three components:

* `SJ` — the Stream Frame Decoder (`StreamJsonParser` in
  `components/chat/chat-status.tsx`): incremental newline-delimited
  classification of a text stream into frames.
* `PM` — the Process Supervisor (`ClaudeProcessManager` in
  `lib/claude/process-manager.ts`): the session-mapping table, watchdog
  timers and lifecycle events, modelled as pure state-transition
  functions over an explicit state record, with an emitted-event trace.
* `GW` — the Realtime Gateway (`WebSocketManager`): connections,
  subscription sets, fan-out of supervisor events, and the chat-message
  handling path.

Strings are modelled as `List Char`.  The platform JSON parser
(`JSON.parse`, a runtime builtin that is not part of the repository) is
modelled as an abstract total function `List Char → Option Json`;
everything proved about the decoder holds for every such function.
Timers are modelled as armed/disarmed state with explicit firing steps;
wall-clock values are passed as explicit `Nat` arguments where the code
calls `new Date()`.
-/

namespace SJ

/-- JSON values as produced by the platform JSON parser. -/
inductive Json where
  | null
  | boolV (b : Bool)
  | numV (n : Int)
  | strV (s : List Char)
  | arrV (elems : List Json)
  | objV (fields : List (List Char × Json))

/-- JS property access `obj[k]`: only plain objects carry named fields;
on arrays and primitives a named field reads as `undefined` (`none`). -/
def getField : Json → List Char → Option Json
  | .objV fields, k => (fields.find? (fun p => decide (p.1 = k))).map Prod.snd
  | _, _ => none

/-- JS truthiness of a possibly-absent value: `undefined`, `null`,
`false`, `0` and `""` are falsy; arrays and objects are truthy. -/
def truthy : Option Json → Bool
  | none => false
  | some .null => false
  | some (.boolV b) => b
  | some (.numV n) => decide (n ≠ 0)
  | some (.strV s) => !s.isEmpty
  | some (.arrV _) => true
  | some (.objV _) => true

/-- Does an `Option Json` hold exactly the given string? (JS `===`). -/
def isStrEq (o : Option Json) (s : List Char) : Bool :=
  match o with
  | some (.strV t) => decide (t = s)
  | _ => false

/-- `typeof x === 'object' && x` in the source's shape test: plain
objects and arrays pass, primitives and `null` do not. -/
def objLike : Json → Bool
  | .objV _ => true
  | .arrV _ => true
  | _ => false

/-- `needle` occurs as a contiguous run at the front of the second list. -/
def startsSeq : List Char → List Char → Bool
  | [], _ => true
  | _ :: _, [] => false
  | c :: n, h :: hs => c = h && startsSeq n hs

/-- JS `hay.includes(needle)`: contiguous substring test. -/
def hasSub (needle : List Char) : List Char → Bool
  | [] => needle.isEmpty
  | h :: hs => startsSeq needle (h :: hs) || hasSub needle hs

/-- JS whitespace for `trim` (the characters relevant to this stream). -/
def isWs (c : Char) : Bool := c = ' ' || c = '\t' || c = '\n' || c = '\r'

/-- JS `s.trim()`: strip leading and trailing whitespace. -/
def trim (s : List Char) : List Char := (s.dropWhile isWs).rdropWhile isWs

/-- Frame classification tags (`ParsedMessage['type']` in the source). -/
inductive FrameType where
  | message
  | error
  | status
  | result
  | incomplete
deriving DecidableEq

/-- A frame's `data` field: a parsed JSON structure or the raw text. -/
inductive FrameData where
  | jsonD (j : Json)
  | textD (s : List Char)

/-- One decoded frame (`ParsedMessage`): classification, payload, raw line. -/
structure Frame where
  ftype : FrameType
  data : FrameData
  raw : List Char

/-- `isClaudeMessage`: a parsed structure with a recognized `type`
discriminant (`user`/`assistant`/`system`/`result`) plus a truthy
`message`, `text` or `content` field. -/
def isClaudeMessage (j : Json) : Bool :=
  truthy (some j) && objLike j &&
    (match getField j "type".toList with
     | some (.strV t) =>
         decide (t = "user".toList) || decide (t = "assistant".toList) ||
           decide (t = "system".toList) || decide (t = "result".toList)
     | _ => false) &&
    (truthy (getField j "message".toList) || truthy (getField j "text".toList) ||
      truthy (getField j "content".toList))

/-- `handleNonMessage`: classify a parsed non-message structure.  In JS,
reading `parsed.error` when `parsed` is `null` throws a TypeError that is
caught by `parseLine`'s catch block; this is modelled as `Except.error`. -/
def handleNonMessage (parsed : Json) (line : List Char) : Except Unit Frame :=
  match parsed with
  | .null => .error ()
  | _ =>
    let messageType : FrameType :=
      if truthy (getField parsed "error".toList) ||
          isStrEq (getField parsed "type".toList) "error".toList then .error
      else if truthy (getField parsed "result".toList) ||
          isStrEq (getField parsed "type".toList) "result".toList then .result
      else .status
    .ok ⟨messageType, .jsonD parsed, line⟩

/-- `handleNonJsonLine`: heuristic classification of a non-JSON line. -/
def handleNonJsonLine (line : List Char) : Option Frame :=
  if hasSub "Error:".toList line || hasSub "ERROR".toList line then
    some ⟨.error, .textD line, line⟩
  else if hasSub "Status:".toList line || hasSub "Processing".toList line then
    some ⟨.status, .textD line, line⟩
  else if !(trim line).isEmpty then
    some ⟨.status, .textD line, line⟩
  else none

/-- Decoder state: the trailing incomplete line held across chunk
boundaries, the running message count, whether the decoder's own
completion timer is armed, and the ordered frames pushed so far. -/
structure DecState where
  buffer : List Char
  messageCount : Nat
  timerArmed : Bool
  out : List Frame

/-- `parseLine`, called on a nonblank trimmed line: reset the completion
timer, try the JSON parse `jp`, classify, push exactly one frame.  `dt`
is the `disableTimeout` construction option. -/
def parseLine (jp : List Char → Option Json) (dt : Bool)
    (st : DecState) (line : List Char) : DecState :=
  let st := { st with timerArmed := false }
  match jp line with
  | some parsed =>
    if isClaudeMessage parsed then
      let st := { st with
        messageCount := st.messageCount + 1,
        out := st.out ++ [⟨.message, .jsonD parsed, line⟩] }
      if dt then st else { st with timerArmed := true }
    else
      match handleNonMessage parsed line with
      | .ok f => { st with out := st.out ++ [f] }
      | .error () => { st with out := st.out ++ (handleNonJsonLine line).toList }
  | none => { st with out := st.out ++ (handleNonJsonLine line).toList }

/-- The per-line loop of `processBuffer`: skip lines that are blank after
trimming, classify the rest. -/
def processLines (jp : List Char → Option Json) (dt : Bool)
    (st : DecState) (lines : List (List Char)) : DecState :=
  lines.foldl (fun s l => if (trim l).isEmpty then s else parseLine jp dt s (trim l)) st

/-- `buffer.split('\n')` with the last element popped back off, i.e.
(complete lines, trailing incomplete segment). -/
def splitP : List Char → List (List Char) × List Char
  | [] => ([], [])
  | c :: cs =>
    let p := splitP cs
    if c = '\n' then ([] :: p.1, p.2)
    else
      match p with
      | ([], t) => ([], c :: t)
      | (l :: ls, t) => ((c :: l) :: ls, t)

/-- `_transform`: append the chunk to the buffer, classify every complete
line, keep the trailing incomplete line in the buffer. -/
def transformC (jp : List Char → Option Json) (dt : Bool)
    (st : DecState) (chunk : List Char) : DecState :=
  let p := splitP (st.buffer ++ chunk)
  { processLines jp dt st p.1 with buffer := p.2 }

/-- `_flush`: if the residual buffer is nonblank, force-classify all of
it (the popped trailing segment included); then clear the timer. -/
def flushC (jp : List Char → Option Json) (dt : Bool) (st : DecState) : DecState :=
  let st :=
    if (trim st.buffer).isEmpty then st
    else
      let p := splitP st.buffer
      { processLines jp dt st (p.1 ++ [p.2]) with buffer := [] }
  { st with timerArmed := false }

/-- A freshly constructed decoder. -/
def initDec : DecState := ⟨[], 0, false, []⟩

/-- Feed a sequence of chunks to a fresh decoder (no end-of-stream yet). -/
def runChunks (jp : List Char → Option Json) (dt : Bool)
    (chunks : List (List Char)) : DecState :=
  chunks.foldl (transformC jp dt) initDec

/-- Frames emitted before end-of-stream. -/
def decodeNoFlush (jp : List Char → Option Json) (dt : Bool)
    (chunks : List (List Char)) : List Frame :=
  (runChunks jp dt chunks).out

/-- Frames emitted for a whole stream, end-of-stream flush included. -/
def decode (jp : List Char → Option Json) (dt : Bool)
    (chunks : List (List Char)) : List Frame :=
  (flushC jp dt (runChunks jp dt chunks)).out

/-- Gluing of two split results across a concatenation point. -/
def glueP (a b : List (List Char) × List Char) : List (List Char) × List Char :=
  match b.1 with
  | [] => (a.1, a.2 ++ b.2)
  | l :: ls => (a.1 ++ (a.2 ++ l) :: ls, b.2)

theorem splitP_append (xs ys : List Char) :
    splitP (xs ++ ys) = glueP (splitP xs) (splitP ys) := by
  induction xs with
  | nil =>
    rcases hB : splitP ys with ⟨bl, bt⟩
    cases bl <;> simp [splitP, glueP, hB]
  | cons c xs ih =>
    by_cases hc : c = '\n'
    · rcases hA : splitP xs with ⟨al, at'⟩
      rcases hB : splitP ys with ⟨bl, bt⟩
      cases bl <;>
        simp [splitP, hc, ih, hA, hB, glueP]
    · rcases hA : splitP xs with ⟨al, at'⟩
      rcases hB : splitP ys with ⟨bl, bt⟩
      cases al <;> cases bl <;>
        simp [splitP, hc, ih, hA, hB, glueP]

theorem splitP_snd_noNl (s : List Char) : '\n' ∉ (splitP s).2 := by
  induction s with
  | nil => simp [splitP]
  | cons c cs ih =>
    by_cases hc : c = '\n'
    · simpa [splitP, hc] using ih
    · rcases hA : splitP cs with ⟨al, t⟩
      cases al with
      | nil =>
        simp only [splitP, hc, if_false, hA]
        intro h
        rcases List.mem_cons.mp h with h | h
        · exact hc h.symm
        · exact ih (by simpa [hA] using h)
      | cons l ls =>
        simp only [splitP, hc, if_false, hA]
        simpa [hA] using ih

theorem splitP_of_noNl (s : List Char) (h : '\n' ∉ s) : splitP s = ([], s) := by
  induction s with
  | nil => rfl
  | cons c cs ih =>
    have hc : ¬(c = '\n') := fun hcc => h (hcc ▸ List.mem_cons_self c cs)
    have hcs : '\n' ∉ cs := fun hm => h (List.mem_cons_of_mem _ hm)
    simp [splitP, hc, ih hcs]

theorem parseLine_buffer (jp : List Char → Option Json) (dt : Bool)
    (st : DecState) (l : List Char) : (parseLine jp dt st l).buffer = st.buffer := by
  unfold parseLine
  rcases h : jp l with _ | parsed
  · rfl
  · cases hcm : isClaudeMessage parsed
    · simp only [hcm, Bool.false_eq_true, if_false]
      rcases handleNonMessage parsed l with ⟨⟩ | f <;> rfl
    · simp only [hcm, if_true]
      cases dt <;> rfl

theorem parseLine_setBuffer (jp : List Char → Option Json) (dt : Bool)
    (st : DecState) (l : List Char) (b : List Char) :
    parseLine jp dt { st with buffer := b } l = { parseLine jp dt st l with buffer := b } := by
  unfold parseLine
  rcases h : jp l with _ | parsed
  · rfl
  · cases hcm : isClaudeMessage parsed
    · simp only [hcm, Bool.false_eq_true, if_false]
      rcases handleNonMessage parsed l with ⟨⟩ | f <;> rfl
    · simp only [hcm, if_true]
      cases dt <;> rfl

theorem processLines_buffer (jp : List Char → Option Json) (dt : Bool)
    (lines : List (List Char)) : ∀ st : DecState,
    (processLines jp dt st lines).buffer = st.buffer := by
  induction lines with
  | nil => intro st; rfl
  | cons l ls ih =>
    intro st
    show (processLines jp dt _ ls).buffer = st.buffer
    rw [ih]
    by_cases h : (trim l).isEmpty
    · simp [h]
    · simp [h, parseLine_buffer]

theorem processLines_cons (jp : List Char → Option Json) (dt : Bool)
    (st : DecState) (l : List Char) (ls : List (List Char)) :
    processLines jp dt st (l :: ls)
      = processLines jp dt (if (trim l).isEmpty then st else parseLine jp dt st (trim l)) ls :=
  rfl

theorem processLines_setBuffer (jp : List Char → Option Json) (dt : Bool)
    (lines : List (List Char)) : ∀ (st : DecState) (b : List Char),
    processLines jp dt { st with buffer := b } lines
      = { processLines jp dt st lines with buffer := b } := by
  induction lines with
  | nil => intro st b; rfl
  | cons l ls ih =>
    intro st b
    rw [processLines_cons, processLines_cons]
    by_cases h : (trim l).isEmpty
    · simp only [h, if_true]
      exact ih st b
    · simp only [h, Bool.false_eq_true, if_false]
      rw [parseLine_setBuffer]
      exact ih _ b

theorem processLines_append (jp : List Char → Option Json) (dt : Bool)
    (st : DecState) (l1 l2 : List (List Char)) :
    processLines jp dt st (l1 ++ l2) = processLines jp dt (processLines jp dt st l1) l2 := by
  simp [processLines, List.foldl_append]

theorem transformC_comp (jp : List Char → Option Json) (dt : Bool)
    (st : DecState) (a b : List Char) (h : '\n' ∉ st.buffer) :
    transformC jp dt (transformC jp dt st a) b = transformC jp dt st (a ++ b) := by
  rcases hp : splitP (st.buffer ++ a) with ⟨ls1, t1⟩
  have ht1 : '\n' ∉ t1 := by
    have hx := splitP_snd_noNl (st.buffer ++ a)
    rw [hp] at hx
    exact hx
  rcases hq : splitP b with ⟨ls2, t2⟩
  have h1 : transformC jp dt st a = { processLines jp dt st ls1 with buffer := t1 } := by
    simp [transformC, hp]
  have h2 : splitP (t1 ++ b) = glueP ([], t1) (ls2, t2) := by
    rw [splitP_append, splitP_of_noNl t1 ht1, hq]
  have h3 : splitP (st.buffer ++ (a ++ b)) = glueP (ls1, t1) (ls2, t2) := by
    rw [← List.append_assoc, splitP_append, hp, hq]
  cases ls2 with
  | nil =>
    simp only [glueP] at h2 h3
    rw [h1]
    simp [transformC, h2, h3, processLines]
  | cons l2 ls2a =>
    simp only [glueP] at h2 h3
    rw [h1]
    simp [transformC, h2, h3, processLines_setBuffer, processLines_append]

theorem foldl_transformC (jp : List Char → Option Json) (dt : Bool) :
    ∀ (chunks : List (List Char)) (st : DecState), '\n' ∉ st.buffer →
    chunks.foldl (transformC jp dt) st = transformC jp dt st chunks.flatten := by
  intro chunks
  induction chunks with
  | nil =>
    intro st h
    simp [transformC, splitP_of_noNl st.buffer h, processLines]
  | cons c cs ih =>
    intro st h
    have hb : '\n' ∉ (transformC jp dt st c).buffer := by
      show '\n' ∉ (splitP (st.buffer ++ c)).2
      exact splitP_snd_noNl _
    calc (c :: cs).foldl (transformC jp dt) st
        = cs.foldl (transformC jp dt) (transformC jp dt st c) := rfl
      _ = transformC jp dt (transformC jp dt st c) cs.flatten := ih _ hb
      _ = transformC jp dt st (c ++ cs.flatten) := transformC_comp jp dt st c cs.flatten h
      _ = transformC jp dt st (c :: cs).flatten := by rw [List.flatten_cons]

theorem runChunks_eq_join (jp : List Char → Option Json) (dt : Bool)
    (chunks : List (List Char)) :
    runChunks jp dt chunks = transformC jp dt initDec chunks.flatten :=
  foldl_transformC jp dt chunks initDec (by simp [initDec])

/-- C1: for every JSON parser behavior and every two ways of chunking the
same character stream, the decoder emits the identical ordered frame
sequence, both before and after the end-of-stream flush; moreover the
frames emitted before the flush are exactly the classifications of the
newline-terminated (complete) lines, so a partial trailing line is never
classified before its newline (or the flush) arrives. -/
theorem decoder_chunk_boundary_insensitive
    (jp : List Char → Option Json) (dt : Bool) (chunks1 chunks2 : List (List Char))
    (h : chunks1.flatten = chunks2.flatten) :
    decodeNoFlush jp dt chunks1 = decodeNoFlush jp dt chunks2 ∧
    decode jp dt chunks1 = decode jp dt chunks2 ∧
    decodeNoFlush jp dt chunks1 =
      (processLines jp dt initDec (splitP chunks1.flatten).1).out := by
  have e : runChunks jp dt chunks1 = runChunks jp dt chunks2 := by
    rw [runChunks_eq_join, runChunks_eq_join, h]
  refine ⟨?_, ?_, ?_⟩
  · rw [decodeNoFlush, decodeNoFlush, e]
  · rw [decode, decode, e]
  · rw [decodeNoFlush, runChunks_eq_join]
    rcases hp : splitP chunks1.flatten with ⟨ls, t⟩
    have hp0 : splitP (initDec.buffer ++ chunks1.flatten) = (ls, t) := by
      rw [show initDec.buffer = ([] : List Char) from rfl, List.nil_append, hp]
    simp [transformC, hp0]

/-- A degenerate JSON parser used for concrete witnesses: every line is
treated as non-JSON text (as when the stream carries no valid JSON). -/
def jpNone : List Char → Option Json := fun _ => none

/-- A stream split at awkward points: mid-line and mid-word. -/
def chunksA : List (List Char) :=
  ["Error: bo".toList, "om\nhel".toList, "lo".toList]

/-- The same stream as one single chunk. -/
def chunksB : List (List Char) := ["Error: boom\nhello".toList]

theorem decoder_chunk_boundary_insensitive_witness :
    chunksA.flatten = chunksB.flatten ∧
    (decodeNoFlush jpNone false chunksA = decodeNoFlush jpNone false chunksB ∧
     decode jpNone false chunksA = decode jpNone false chunksB ∧
     decodeNoFlush jpNone false chunksA =
       (processLines jpNone false initDec (splitP chunksA.flatten).1).out) :=
  ⟨by decide, decoder_chunk_boundary_insensitive jpNone false chunksA chunksB (by decide)⟩

theorem dropWhile_head_false (p : Char → Bool) (l : List Char) :
    ∀ c cs, l.dropWhile p = c :: cs → p c = false := by
  induction l with
  | nil => intro c cs h; cases h
  | cons a as ih =>
    intro c cs h
    by_cases hp : p a
    · rw [List.dropWhile_cons_of_pos hp] at h
      exact ih c cs h
    · rw [List.dropWhile_cons_of_neg hp] at h
      cases h
      simpa using hp

theorem dropWhile_eq_self_of_head (p : Char → Bool) (l : List Char)
    (h : ∀ c cs, l = c :: cs → p c = false) : l.dropWhile p = l := by
  cases l with
  | nil => rfl
  | cons a as =>
    rw [List.dropWhile_cons_of_neg]
    simp [h a as rfl]

theorem trim_trim (s : List Char) : trim (trim s) = trim s := by
  unfold trim
  have h1 : List.dropWhile isWs ((List.dropWhile isWs s).rdropWhile isWs)
      = (List.dropWhile isWs s).rdropWhile isWs := by
    apply dropWhile_eq_self_of_head
    intro c cs hc
    obtain ⟨t, hvt⟩ := List.rdropWhile_prefix isWs (List.dropWhile isWs s)
    rw [hc] at hvt
    exact dropWhile_head_false isWs s c (cs ++ t) (by rw [← hvt]; rfl)
  rw [h1, List.rdropWhile_idempotent]

theorem handleNonJsonLine_isSome (l : List Char) (h : trim l ≠ []) :
    ∃ f, handleNonJsonLine l = some f ∧
      (f.ftype = FrameType.error ∨ f.ftype = FrameType.status) ∧
      f.raw = l ∧ f.data = FrameData.textD l := by
  have hbe : (trim l).isEmpty = false := by
    cases htl : trim l with
    | nil => exact absurd htl h
    | cons a as => rfl
  unfold handleNonJsonLine
  by_cases h1 : (hasSub "Error:".toList l || hasSub "ERROR".toList l) = true
  · rw [if_pos h1]
    exact ⟨⟨.error, .textD l, l⟩, rfl, Or.inl rfl, rfl, rfl⟩
  · rw [if_neg h1]
    by_cases h2 : (hasSub "Status:".toList l || hasSub "Processing".toList l) = true
    · rw [if_pos h2]
      exact ⟨⟨.status, .textD l, l⟩, rfl, Or.inr rfl, rfl, rfl⟩
    · rw [if_neg h2, if_pos (by simp [hbe] : (!(trim l).isEmpty) = true)]
      exact ⟨⟨.status, .textD l, l⟩, rfl, Or.inr rfl, rfl, rfl⟩

theorem parseLine_pushes_one (jp : List Char → Option Json) (dt : Bool)
    (st : DecState) (l : List Char) (h : trim l ≠ []) :
    ∃ f, (parseLine jp dt st l).out = st.out ++ [f] := by
  unfold parseLine
  rcases hj : jp l with _ | parsed
  · obtain ⟨f, hf, -, -, -⟩ := handleNonJsonLine_isSome l h
    exact ⟨f, by simp [hf]⟩
  · cases hcm : isClaudeMessage parsed
    · simp only [hcm, Bool.false_eq_true, if_false]
      rcases hm : handleNonMessage parsed l with ⟨⟩ | f
      · obtain ⟨f, hf, -, -, -⟩ := handleNonJsonLine_isSome l h
        exact ⟨f, by simp [hf]⟩
      · exact ⟨f, by simp⟩
    · simp only [hcm, if_true]
      cases dt
      · exact ⟨⟨.message, .jsonD parsed, l⟩, rfl⟩
      · exact ⟨⟨.message, .jsonD parsed, l⟩, rfl⟩

theorem parseLine_out_of_none (jp : List Char → Option Json) (dt : Bool)
    (st : DecState) (l : List Char) (hj : jp l = none) :
    (parseLine jp dt st l).out = st.out ++ (handleNonJsonLine l).toList := by
  simp [parseLine, hj]

theorem decode_single_line (jp : List Char → Option Json) (dt : Bool)
    (line : List Char) (hn : '\n' ∉ line) :
    decode jp dt [line ++ ['\n']] = (processLines jp dt initDec [line]).out := by
  have hsp : splitP (initDec.buffer ++ (line ++ ['\n'])) = ([line], []) := by
    rw [show initDec.buffer = ([] : List Char) from rfl, List.nil_append,
      splitP_append, splitP_of_noNl line hn]
    simp [splitP, glueP]
  have h1 : runChunks jp dt [line ++ ['\n']]
      = { processLines jp dt initDec [line] with buffer := [] } := by
    show transformC jp dt initDec (line ++ ['\n']) = _
    simp [transformC, hsp]
  rw [decode, h1]
  simp [flushC, trim, List.rdropWhile]

/-- C2 counterexample: feeding the single complete line `"\n"` (an empty
line) to a fresh decoder produces zero frames — the blank line is skipped
by `processBuffer`'s `if (trimmed)` guard — not the exactly-one frame the
claim demands. -/
theorem blank_line_produces_no_frame :
    decode jpNone false [['\n']] = [] ∧ (decode jpNone false [['\n']]).length ≠ 1 :=
  ⟨rfl, by decide⟩

/-- C2 amended: for every complete line that is nonblank after trimming
(malformed or not, under every JSON-parser behavior), the decoder
produces exactly one frame, never throws (it is a total function), and
when the structured parse fails the single frame is an `error` or
`status` classification wrapping the trimmed line.  Lines that are empty
or whitespace-only are skipped and produce no frame. -/
theorem nonblank_line_exactly_one_frame
    (jp : List Char → Option Json) (dt : Bool) (line : List Char)
    (hn : '\n' ∉ line) (hb : trim line ≠ []) :
    (decode jp dt [line ++ ['\n']]).length = 1 ∧
    (jp (trim line) = none →
      ∃ f, decode jp dt [line ++ ['\n']] = [f] ∧
        (f.ftype = FrameType.error ∨ f.ftype = FrameType.status) ∧
        f.raw = trim line ∧ f.data = FrameData.textD (trim line)) := by
  have hbe : (trim line).isEmpty = false := by
    cases htl : trim line with
    | nil => exact absurd htl hb
    | cons a as => rfl
  have htt : trim (trim line) ≠ [] := by rw [trim_trim]; exact hb
  have hd := decode_single_line jp dt line hn
  rw [processLines_cons] at hd
  simp only [hbe, Bool.false_eq_true, if_false] at hd
  have hd2 : decode jp dt [line ++ ['\n']]
      = (parseLine jp dt initDec (trim line)).out := hd
  constructor
  · obtain ⟨f, hf⟩ := parseLine_pushes_one jp dt initDec (trim line) htt
    rw [hd2, hf]
    rfl
  · intro hjn
    obtain ⟨f, hf, hcls, hraw, hdata⟩ := handleNonJsonLine_isSome (trim line) htt
    refine ⟨f, ?_, hcls, hraw, hdata⟩
    rw [hd2, parseLine_out_of_none jp dt initDec (trim line) hjn, hf]
    rfl

/-- Witness line for the amended C2: plain non-JSON text. -/
def wline : List Char := "oops".toList

theorem nonblank_line_exactly_one_frame_witness :
    ('\n' ∉ wline) ∧ trim wline ≠ [] ∧
    ((decode jpNone false [wline ++ ['\n']]).length = 1 ∧
     (jpNone (trim wline) = none →
       ∃ f, decode jpNone false [wline ++ ['\n']] = [f] ∧
         (f.ftype = FrameType.error ∨ f.ftype = FrameType.status) ∧
         f.raw = trim wline ∧ f.data = FrameData.textD (trim wline))) :=
  ⟨by decide, by decide,
    nonblank_line_exactly_one_frame jpNone false wline (by decide) (by decide)⟩

end SJ

namespace PM

/-- Web-facing session identifiers.  `uuidv4()` is modelled as a fresh
counter (`nextSessionId`); real UUIDs are fresh with probability one, and
freshness is the only property the code relies on. -/
abbrev SId := Nat

/-- Status values.  TS models statuses as string-literal unions, and the
code compares and stores them as strings; statuses are therefore
modelled as strings.  The declaring `claude.types.ts` (its content sits
at the tail of `app/page.tsx`) restricts `SessionMapping.status` to
`'active' | 'paused' | 'completed' | 'crashed'`, while the
`ProcessStatus` event payloads use `'starting' | 'active' |
'processing' | 'waiting_permission' | 'completed' | 'error'` (the code
also routes `'crashed'` into such a payload through its
`as ProcessStatus` cast). -/
abbrev PMStatus := List Char

def statusStarting : PMStatus := "starting".toList

def statusActive : PMStatus := "active".toList

def statusPaused : PMStatus := "paused".toList

/-- The `'processing'` status named by the specification (§3) and by the
sendMessage precondition claim: it occurs in the `ProcessStatus` payload
union but not in the declared `SessionMapping.status` union, and no code
path ever assigns it to a mapping (`statusOk` / `reachable_inv`). -/
def statusProcessing : PMStatus := "processing".toList

def statusCompleted : PMStatus := "completed".toList

def statusCrashed : PMStatus := "crashed".toList

/-- The nested `message` body of a stream message: a role and the text
items of its content array. -/
structure MsgBody where
  role : List Char
  textItems : List (List Char)
deriving DecidableEq

/-- A parsed stream-json message (`ClaudeMessage`): the discriminant
`type`, optional `subtype`, optional `session_id`, optional body, and
the metadata fields the supervisor reads or writes. -/
structure ClaudeMsg where
  mtype : List Char
  subtype : Option (List Char)
  sessionIdField : Option (List Char)
  message : Option MsgBody
  metaIncomplete : Bool
  metaReason : Option (List Char)
deriving DecidableEq

/-- Launch configuration (`ProcessConfig`).  The CLI argument vector and
authentication environment built from it are not touched by any claim
and are elided; `sessionId` is the caller-supplied id that
`createSession` receives (and, as proved below, ignores). -/
structure Config where
  sessionId : SId
  userId : List Char
  projectPath : List Char
  modelName : List Char
deriving DecidableEq

/-- One Session Mapping (`SessionMapping`).  `pid` stands for the spawned
child-process handle; `claudeSessionId` is empty until an init frame
arrives. -/
structure SessionMapping where
  webSessionId : SId
  claudeSessionId : List Char
  pid : Nat
  status : PMStatus
  createdAt : Nat
  lastActivity : Nat
  config : Config
  messageCount : Nat
deriving DecidableEq

/-- The emitter event names used by `ClaudeProcessManager.emit`. -/
inductive EvName where
  | sessionCreated
  | messageSent
  | sessionEnded
  | claudeMessage
  | sessionCompleted
  | processExit
  | processError
deriving DecidableEq

/-- The `type` field of an emitted `MessageEvent`. -/
inductive EvType where
  | message
  | error
  | status
  | completion
deriving DecidableEq

/-- The `data` payload of an emitted event: a `ProcessStatus` snapshot
(pid and error-string details elided), a stream message, or error text. -/
inductive EventData where
  | statusD (s : PMStatus)
  | msgD (m : ClaudeMsg)
  | errD (e : List Char)
deriving DecidableEq

/-- One emitted `MessageEvent`. -/
structure Event where
  name : EvName
  etype : EvType
  sessionId : SId
  data : EventData
  timestamp : Nat
deriving DecidableEq

/-- Supervisor state: the session table (`processes`), the set of armed
completion watchdogs (`completionTimeouts` entries that can still fire),
the handler-registration record, id/pid generators, and observable
traces: emitted events, bytes written to child stdin, and termination
signals sent. -/
structure MState where
  processes : List (SId × SessionMapping)
  timeouts : List SId
  handlers : List SId
  nextSessionId : SId
  nextPid : Nat
  events : List Event
  stdinWrites : List (Nat × List Char)
  kills : List Nat
deriving DecidableEq

/-- `Map.get`. -/
def mapGet (m : List (SId × SessionMapping)) (k : SId) : Option SessionMapping :=
  (m.find? (fun p => decide (p.1 = k))).map Prod.snd

/-- `Map.set`: replace in place if the key is present, else append. -/
def mapSet (m : List (SId × SessionMapping)) (k : SId) (v : SessionMapping) :
    List (SId × SessionMapping) :=
  match m with
  | [] => [(k, v)]
  | (k1, v1) :: rest =>
    if k1 = k then (k, v) :: rest else (k1, v1) :: mapSet rest k v

/-- `Map.delete`: remove the entry for the key. -/
def mapDel (m : List (SId × SessionMapping)) (k : SId) : List (SId × SessionMapping) :=
  match m with
  | [] => []
  | (k1, v1) :: rest => if k1 = k then rest else (k1, v1) :: mapDel rest k

/-- Arm a watchdog (`startCompletionTimeout` / the set-half of
`resetCompletionTimeout`): ensure the session's timer is pending. -/
def toArm (l : List SId) (k : SId) : List SId :=
  if k ∈ l then l else l ++ [k]

def MAX_CONCURRENT_SESSIONS : Nat := 100

/-- Errors thrown by supervisor entry points. -/
inductive PMErr where
  | capacity
  | notFound (sid : SId)
  | notActive (sid : SId)
  | spawnFailed
deriving DecidableEq

/-- `createSession`: reject at the concurrency ceiling; otherwise mint a
fresh web session id, spawn a child (a fresh pid), insert the mapping
with status `active`, register the four process handlers
(`setupProcessHandlers`, recorded in `handlers`; their bodies are the
`handle*` operations below), arm the completion watchdog, emit
`session-created` (whose payload reports status `starting`), and return
the mapping synchronously. -/
def createSession (t : Nat) (config : Config) (st : MState) :
    Except PMErr (SessionMapping × MState) :=
  if MAX_CONCURRENT_SESSIONS ≤ st.processes.length then .error .capacity
  else
    let webSessionId := st.nextSessionId
    let pid := st.nextPid
    let m : SessionMapping :=
      { webSessionId := webSessionId, claudeSessionId := [], pid := pid,
        status := statusActive, createdAt := t, lastActivity := t,
        config := config, messageCount := 0 }
    .ok (m, { st with
      processes := mapSet st.processes webSessionId m,
      handlers := st.handlers ++ [webSessionId],
      timeouts := toArm st.timeouts webSessionId,
      nextSessionId := webSessionId + 1,
      nextPid := pid + 1,
      events := st.events ++
        [⟨.sessionCreated, .status, webSessionId, .statusD statusStarting, t⟩] })

/-- `sendMessage`: unknown id throws not-found; a session whose status is
not `active` throws not-active; otherwise write `content + "\n"` to the
child's stdin, refresh `lastActivity`, increment `messageCount`, and
emit a `message-sent` event echoing a synthetic user message. -/
def sendMessage (t : Nat) (sessionId : SId) (content : List Char) (st : MState) :
    Except PMErr MState :=
  match mapGet st.processes sessionId with
  | none => .error (.notFound sessionId)
  | some session =>
    if session.status = statusActive then
      .ok { st with
        processes := mapSet st.processes sessionId
          { session with lastActivity := t, messageCount := session.messageCount + 1 },
        stdinWrites := st.stdinWrites ++ [(session.pid, content ++ ['\n'])],
        events := st.events ++
          [⟨.messageSent, .message, sessionId,
            .msgD { mtype := "user".toList, subtype := none, sessionIdField := none,
                    message := some { role := "user".toList, textItems := [content] },
                    metaIncomplete := false, metaReason := none }, t⟩] }
    else .error (.notActive sessionId)

/-- `executeSlashCommand`: build `"/cmd args…"` and send it. -/
def executeSlashCommand (t : Nat) (sessionId : SId) (command : List Char)
    (args : List (List Char)) (st : MState) : Except PMErr MState :=
  let fullCommand :=
    if args.isEmpty then '/' :: command
    else '/' :: command ++ ' ' :: List.intercalate [' '] args
  sendMessage t sessionId fullCommand st

/-- `killSession`: a no-op for an unknown id; otherwise disarm the
watchdog, signal the child (the five-second SIGKILL escalation timer is
outside this embedding), mark the mapping completed, remove it from the
table, and emit `session-ended`.  Total — it never throws. -/
def killSession (t : Nat) (sessionId : SId) (st : MState) : MState :=
  match mapGet st.processes sessionId with
  | none => st
  | some session =>
    { st with
      timeouts := st.timeouts.erase sessionId,
      kills := if session.pid ≠ 0 then st.kills ++ [session.pid] else st.kills,
      processes := mapDel (mapSet st.processes sessionId
        { session with status := statusCompleted }) sessionId,
      events := st.events ++
        [⟨.sessionEnded, .status, sessionId, .statusD statusCompleted, t⟩] }

/-- `handleSessionCompletion`: mark the mapping completed (it stays in
the table), disarm the watchdog, emit `session-completed`. -/
def handleSessionCompletion (t : Nat) (sessionId : SId) (st : MState) : MState :=
  match mapGet st.processes sessionId with
  | none => st
  | some session =>
    { st with
      processes := mapSet st.processes sessionId { session with status := statusCompleted },
      timeouts := st.timeouts.erase sessionId,
      events := st.events ++
        [⟨.sessionCompleted, .completion, sessionId, .statusD statusCompleted, t⟩] }

/-- Is an optional string truthy (present and nonempty)? -/
def strTruthy : Option (List Char) → Bool
  | some s => !s.isEmpty
  | none => false

/-- The synthetic terminal message fabricated by the watchdog
(`handleIncompleteCompletion`): a `result` tagged incomplete with the
machine-readable reason `timeout_completion_bug`. -/
def fakeResultMessage : ClaudeMsg :=
  { mtype := "result".toList, subtype := none, sessionIdField := none,
    message := none, metaIncomplete := true,
    metaReason := some "timeout_completion_bug".toList }

/-- The init-frame update inside `handleClaudeMessage`: on a `system` /
`init` frame with a truthy `session_id`, record the external session id. -/
def initUpdate (msg : ClaudeMsg) (session : SessionMapping) : SessionMapping :=
  if msg.mtype = "system".toList ∧ msg.subtype = some "init".toList ∧
      strTruthy msg.sessionIdField then
    { session with claudeSessionId := msg.sessionIdField.getD [] }
  else session

/-- `session.lastActivity = new Date()` on the object held in the table. -/
def touchActivity (t : Nat) (sessionId : SId) (st : MState) : MState :=
  match mapGet st.processes sessionId with
  | some s2 =>
    { st with processes := mapSet st.processes sessionId { s2 with lastActivity := t } }
  | none => st

/-- `this.emit(...)`, recorded on the trace. -/
def emitEvent (e : Event) (st : MState) : MState :=
  { st with events := st.events ++ [e] }

/-- `handleClaudeMessage`: ignore frames for unknown ids; otherwise
record the external session id on an init frame, re-arm the watchdog
(`resetCompletionTimeout`), run completion handling for `result`
frames, refresh `lastActivity`, and emit `claude-message`.  Nothing in
this path inspects the mapping's status. -/
def handleClaudeMessage (t : Nat) (sessionId : SId) (msg : ClaudeMsg) (st : MState) :
    MState :=
  match mapGet st.processes sessionId with
  | none => st
  | some session =>
    emitEvent ⟨.claudeMessage, .message, sessionId, .msgD msg, t⟩
      (touchActivity t sessionId
        ((if msg.mtype = "result".toList then handleSessionCompletion t sessionId else id)
          { st with
              processes := mapSet st.processes sessionId (initUpdate msg session),
              timeouts := toArm (st.timeouts.erase sessionId) sessionId }))

/-- `handleIncompleteCompletion`: feed the fabricated terminal message
through the normal frame path. -/
def handleIncompleteCompletion (t : Nat) (sessionId : SId) (st : MState) : MState :=
  handleClaudeMessage t sessionId fakeResultMessage st

/-- An armed completion watchdog elapsing: the single-shot timer is
spent (removed from the armed set), then its callback runs. -/
def fireWatchdog (t : Nat) (sessionId : SId) (st : MState) : MState :=
  handleIncompleteCompletion t sessionId { st with timeouts := st.timeouts.erase sessionId }

/-- `handleProcessExit` (OS-reported exit): ignore unknown ids; set the
status from the exit code (`0` → completed, anything else → crashed),
emit `process-exit`, then remove the mapping and disarm the watchdog. -/
def handleProcessExit (t : Nat) (sessionId : SId) (code : Option Int) (st : MState) :
    MState :=
  match mapGet st.processes sessionId with
  | none => st
  | some session =>
    let newStatus : PMStatus := if code = some 0 then statusCompleted else statusCrashed
    { st with
      processes := mapDel (mapSet st.processes sessionId
        { session with status := newStatus }) sessionId,
      timeouts := st.timeouts.erase sessionId,
      events := st.events ++
        [⟨.processExit, .status, sessionId, .statusD newStatus, t⟩] }

/-- `handleProcessError` (the child's `error` event): mark the mapping
crashed and emit `process-error`; the mapping is not removed and the
watchdog is not touched. -/
def handleProcessError (t : Nat) (sessionId : SId) (err : List Char) (st : MState) :
    MState :=
  match mapGet st.processes sessionId with
  | none => st
  | some session =>
    { st with
      processes := mapSet st.processes sessionId { session with status := statusCrashed },
      events := st.events ++ [⟨.processError, .error, sessionId, .errD err, t⟩] }

/-- The stderr `data` handler: emit `process-error` with the diagnostic
text; no lookup, no status change. -/
def handleStderrData (t : Nat) (sessionId : SId) (err : List Char) (st : MState) :
    MState :=
  { st with events := st.events ++ [⟨.processError, .error, sessionId, .errD err, t⟩] }

/-- A freshly constructed `ClaudeProcessManager` (pids start at 1, as OS
pids are nonzero). -/
def initState : MState :=
  { processes := [], timeouts := [], handlers := [], nextSessionId := 0,
    nextPid := 1, events := [], stdinWrites := [], kills := [] }

/-- One supervisor step: an entry-point call that succeeded (failed
calls leave the state unchanged), a process-handler invocation, or an
armed watchdog firing.  `executeSlashCommand` factors through
`sendMessage` and needs no constructor of its own. -/
inductive Step : MState → MState → Prop where
  | createOk (st : MState) (t : Nat) (cfg : Config) (m : SessionMapping) (st2 : MState)
      (h : createSession t cfg st = .ok (m, st2)) : Step st st2
  | sendOk (st : MState) (t : Nat) (sid : SId) (content : List Char) (st2 : MState)
      (h : sendMessage t sid content st = .ok st2) : Step st st2
  | kill (st : MState) (t : Nat) (sid : SId) : Step st (killSession t sid st)
  | claudeMsg (st : MState) (t : Nat) (sid : SId) (msg : ClaudeMsg) :
      Step st (handleClaudeMessage t sid msg st)
  | procExit (st : MState) (t : Nat) (sid : SId) (code : Option Int) :
      Step st (handleProcessExit t sid code st)
  | procErr (st : MState) (t : Nat) (sid : SId) (e : List Char) :
      Step st (handleProcessError t sid e st)
  | stderrData (st : MState) (t : Nat) (sid : SId) (e : List Char) :
      Step st (handleStderrData t sid e st)
  | watchdog (st : MState) (t : Nat) (sid : SId) (h : sid ∈ st.timeouts) :
      Step st (fireWatchdog t sid st)

/-- States the supervisor can actually be in. -/
inductive Reachable : MState → Prop where
  | init : Reachable initState
  | step {st st2 : MState} : Reachable st → Step st st2 → Reachable st2

theorem mapGet_cons (k1 : SId) (v1 : SessionMapping) (rest : List (SId × SessionMapping))
    (k : SId) :
    mapGet ((k1, v1) :: rest) k = if k1 = k then some v1 else mapGet rest k := by
  by_cases h : k1 = k
  · simp [mapGet, List.find?, h]
  · simp [mapGet, List.find?, h]

theorem mapGet_set_self (m : List (SId × SessionMapping)) (k : SId) (v : SessionMapping) :
    mapGet (mapSet m k v) k = some v := by
  induction m with
  | nil => simp [mapSet, mapGet_cons]
  | cons p rest ih =>
    rcases p with ⟨k1, v1⟩
    by_cases h : k1 = k
    · simp [mapSet, h, mapGet_cons]
    · simp [mapSet, h, mapGet_cons, ih]

theorem mapGet_set_ne (m : List (SId × SessionMapping)) (k : SId) (v : SessionMapping)
    (k2 : SId) (h : k2 ≠ k) : mapGet (mapSet m k v) k2 = mapGet m k2 := by
  have hk : ¬(k = k2) := fun hh => h hh.symm
  induction m with
  | nil => simp [mapSet, mapGet_cons, hk]
  | cons p rest ih =>
    rcases p with ⟨k1, v1⟩
    by_cases h1 : k1 = k
    · subst h1
      simp [mapSet, mapGet_cons, hk]
    · simp [mapSet, h1, mapGet_cons, ih]

theorem mem_mapSet (m : List (SId × SessionMapping)) (k : SId) (v : SessionMapping)
    (p : SId × SessionMapping) (hp : p ∈ mapSet m k v) : p = (k, v) ∨ p ∈ m := by
  induction m with
  | nil => simpa [mapSet] using hp
  | cons q rest ih =>
    rcases q with ⟨k1, v1⟩
    by_cases h1 : k1 = k
    · simp only [mapSet, h1, if_true] at hp
      rcases List.mem_cons.mp hp with h | h
      · exact Or.inl h
      · exact Or.inr (List.mem_cons_of_mem _ h)
    · simp only [mapSet, h1, if_false] at hp
      rcases List.mem_cons.mp hp with h | h
      · exact Or.inr (h ▸ List.mem_cons_self _ _)
      · rcases ih h with h2 | h2
        · exact Or.inl h2
        · exact Or.inr (List.mem_cons_of_mem _ h2)

theorem mapDel_sublist (m : List (SId × SessionMapping)) (k : SId) :
    (mapDel m k).Sublist m := by
  induction m with
  | nil => simp [mapDel]
  | cons q rest ih =>
    rcases q with ⟨k1, v1⟩
    by_cases h1 : k1 = k
    · simp only [mapDel, if_pos h1]
      exact List.sublist_cons_self _ _
    · simp only [mapDel, if_neg h1]
      exact List.Sublist.cons₂ _ ih

theorem mem_mapDel (m : List (SId × SessionMapping)) (k : SId)
    (p : SId × SessionMapping) (hp : p ∈ mapDel m k) : p ∈ m :=
  (mapDel_sublist m k).mem hp

theorem mapGet_del_ne (m : List (SId × SessionMapping)) (k k2 : SId) (h : k2 ≠ k) :
    mapGet (mapDel m k) k2 = mapGet m k2 := by
  induction m with
  | nil => rfl
  | cons q rest ih =>
    rcases q with ⟨k1, v1⟩
    by_cases h1 : k1 = k
    · subst h1
      have hk : ¬(k1 = k2) := fun hh => h hh.symm
      simp [mapDel, mapGet_cons, hk]
    · simp [mapDel, h1, mapGet_cons, ih]

theorem mapGet_none_of_not_mem (m : List (SId × SessionMapping)) (k : SId)
    (h : k ∉ m.map Prod.fst) : mapGet m k = none := by
  induction m with
  | nil => rfl
  | cons q rest ih =>
    rcases q with ⟨k1, v1⟩
    simp only [List.map_cons, List.mem_cons] at h
    push_neg at h
    rw [mapGet_cons, if_neg (Ne.symm h.1), ih h.2]

theorem mapGet_some_mem (m : List (SId × SessionMapping)) (k : SId)
    (v : SessionMapping) (h : mapGet m k = some v) : (k, v) ∈ m := by
  induction m with
  | nil => cases h
  | cons q rest ih =>
    rcases q with ⟨k1, v1⟩
    rw [mapGet_cons] at h
    by_cases h1 : k1 = k
    · rw [if_pos h1] at h
      cases h
      exact h1 ▸ List.mem_cons_self _ _
    · rw [if_neg h1] at h
      exact List.mem_cons_of_mem _ (ih h)

theorem key_mem_of_mapGet_some (m : List (SId × SessionMapping)) (k : SId)
    (v : SessionMapping) (h : mapGet m k = some v) : k ∈ m.map Prod.fst := by
  have := mapGet_some_mem m k v h
  exact List.mem_map.mpr ⟨(k, v), this, rfl⟩

theorem keys_mapSet_of_mem (m : List (SId × SessionMapping)) (k : SId) (v : SessionMapping)
    (h : k ∈ m.map Prod.fst) : (mapSet m k v).map Prod.fst = m.map Prod.fst := by
  induction m with
  | nil => simp at h
  | cons q rest ih =>
    rcases q with ⟨k1, v1⟩
    by_cases h1 : k1 = k
    · simp [mapSet, h1]
    · simp only [List.map_cons, List.mem_cons] at h
      rcases h with h | h
      · exact absurd h.symm h1
      · simp [mapSet, h1, ih h]

theorem keys_mapSet_of_not_mem (m : List (SId × SessionMapping)) (k : SId)
    (v : SessionMapping) (h : k ∉ m.map Prod.fst) :
    (mapSet m k v).map Prod.fst = m.map Prod.fst ++ [k] := by
  induction m with
  | nil => simp [mapSet]
  | cons q rest ih =>
    rcases q with ⟨k1, v1⟩
    simp only [List.map_cons, List.mem_cons] at h
    push_neg at h
    have h1 : ¬(k1 = k) := Ne.symm h.1
    simp [mapSet, h1, ih h.2]

theorem mapGet_del_self (m : List (SId × SessionMapping)) (k : SId)
    (h : (m.map Prod.fst).Nodup) : mapGet (mapDel m k) k = none := by
  induction m with
  | nil => rfl
  | cons q rest ih =>
    rcases q with ⟨k1, v1⟩
    simp only [List.map_cons, List.nodup_cons] at h
    by_cases h1 : k1 = k
    · subst h1
      simp only [mapDel, if_pos rfl]
      exact mapGet_none_of_not_mem rest k1 h.1
    · simp only [mapDel, if_neg h1]
      rw [mapGet_cons, if_neg h1]
      exact ih h.2

theorem mem_toArm (l : List SId) (k x : SId) (h : x ∈ toArm l k) : x ∈ l ∨ x = k := by
  unfold toArm at h
  by_cases hk : k ∈ l
  · rw [if_pos hk] at h
    exact Or.inl h
  · rw [if_neg hk] at h
    rcases List.mem_append.mp h with h | h
    · exact Or.inl h
    · exact Or.inr (List.mem_singleton.mp h)

theorem toArm_nodup (l : List SId) (k : SId) (h : l.Nodup) : (toArm l k).Nodup := by
  unfold toArm
  by_cases hk : k ∈ l
  · rwa [if_pos hk]
  · rw [if_neg hk]
    simpa [List.nodup_append] using ⟨h, hk⟩

/-- The status values the code ever stores in a mapping. -/
def statusOk (s : PMStatus) : Prop :=
  s = statusActive ∨ s = statusCompleted ∨ s = statusCrashed

/-- The supervisor's state invariant over (table, armed watchdogs, id
generator): every stored status is active/completed/crashed, keys are
consistent and below the generator, every armed watchdog belongs to a
live mapping, and keys and armed set are duplicate-free. -/
def InvP (procs : List (SId × SessionMapping)) (tos : List SId) (nid : SId) : Prop :=
  (∀ p ∈ procs, statusOk p.2.status ∧ p.2.webSessionId = p.1 ∧ p.1 < nid) ∧
  (∀ sid ∈ tos, mapGet procs sid ≠ none) ∧
  (procs.map Prod.fst).Nodup ∧
  tos.Nodup

def Inv (st : MState) : Prop := InvP st.processes st.timeouts st.nextSessionId

theorem invp_set_existing (procs : List (SId × SessionMapping)) (tos : List SId)
    (nid : SId) (h : InvP procs tos nid) (sid : SId) (session newv : SessionMapping)
    (hget : mapGet procs sid = some session)
    (hstat : newv.status = session.status ∨ statusOk newv.status)
    (hweb : newv.webSessionId = session.webSessionId) :
    InvP (mapSet procs sid newv) tos nid := by
  obtain ⟨h1, h2, h3, h4⟩ := h
  have hmem := mapGet_some_mem procs sid session hget
  have hkey := key_mem_of_mapGet_some procs sid session hget
  obtain ⟨hs, hw, hn⟩ := h1 (sid, session) hmem
  refine ⟨?_, ?_, ?_, h4⟩
  · intro p hp
    rcases mem_mapSet _ _ _ _ hp with rfl | hp2
    · refine ⟨?_, ?_, hn⟩
      · rcases hstat with he | hok
        · rw [he]; exact hs
        · exact hok
      · show newv.webSessionId = sid
        rw [hweb]; exact hw
    · exact h1 p hp2
  · intro s hstos
    by_cases hss : s = sid
    · subst hss
      rw [mapGet_set_self]
      simp
    · rw [mapGet_set_ne _ _ _ _ hss]
      exact h2 s hstos
  · rw [keys_mapSet_of_mem _ _ _ hkey]
    exact h3

theorem invp_rearm (procs : List (SId × SessionMapping)) (tos : List SId) (nid : SId)
    (h : InvP procs tos nid) (sid : SId) (hdom : mapGet procs sid ≠ none) :
    InvP procs (toArm (tos.erase sid) sid) nid := by
  obtain ⟨h1, h2, h3, h4⟩ := h
  refine ⟨h1, ?_, h3, toArm_nodup _ _ (h4.erase _)⟩
  intro s hs
  rcases mem_toArm _ _ _ hs with hmem | rfl
  · exact h2 s (List.mem_of_mem_erase hmem)
  · exact hdom

theorem invp_erase_to (procs : List (SId × SessionMapping)) (tos : List SId) (nid : SId)
    (h : InvP procs tos nid) (sid : SId) : InvP procs (tos.erase sid) nid := by
  obtain ⟨h1, h2, h3, h4⟩ := h
  exact ⟨h1, fun s hs => h2 s (List.mem_of_mem_erase hs), h3, h4.erase _⟩

theorem invp_del (procs : List (SId × SessionMapping)) (tos : List SId) (nid : SId)
    (h : InvP procs tos nid) (sid : SId) :
    InvP (mapDel procs sid) (tos.erase sid) nid := by
  obtain ⟨h1, h2, h3, h4⟩ := h
  refine ⟨fun p hp => h1 p (mem_mapDel _ _ _ hp), ?_, ?_, h4.erase _⟩
  · intro s hs
    have hpair := (List.Nodup.mem_erase_iff h4).mp hs
    rw [mapGet_del_ne _ _ _ hpair.1]
    exact h2 s hpair.2
  · exact List.Nodup.sublist ((mapDel_sublist procs sid).map Prod.fst) h3

theorem inv_createSession {st : MState} {t : Nat} {cfg : Config}
    {m : SessionMapping} {st2 : MState} (h : Inv st)
    (hc : createSession t cfg st = .ok (m, st2)) : Inv st2 := by
  unfold createSession at hc
  by_cases hcap : MAX_CONCURRENT_SESSIONS ≤ st.processes.length
  · rw [if_pos hcap] at hc
    cases hc
  · rw [if_neg hcap] at hc
    simp only [Except.ok.injEq, Prod.mk.injEq] at hc
    obtain ⟨hm, hst⟩ := hc
    subst hst
    obtain ⟨h1, h2, h3, h4⟩ := h
    have hfresh : st.nextSessionId ∉ st.processes.map Prod.fst := by
      intro hmem
      obtain ⟨p, hp, hpe⟩ := List.mem_map.mp hmem
      have hlt := (h1 p hp).2.2
      rw [hpe] at hlt
      exact Nat.lt_irrefl _ hlt
    refine ⟨?_, ?_, ?_, toArm_nodup _ _ h4⟩
    · intro p hp
      rcases mem_mapSet _ _ _ _ hp with rfl | hp2
      · exact ⟨Or.inl rfl, rfl, Nat.lt_succ_self _⟩
      · obtain ⟨hs, hw, hn⟩ := h1 p hp2
        exact ⟨hs, hw, Nat.lt_succ_of_lt hn⟩
    · intro s hs
      rcases mem_toArm _ _ _ hs with hmem | rfl
      · by_cases hss : s = st.nextSessionId
        · subst hss
          rw [mapGet_set_self]
          simp
        · rw [mapGet_set_ne _ _ _ _ hss]
          exact h2 s hmem
      · rw [mapGet_set_self]
        simp
    · rw [keys_mapSet_of_not_mem _ _ _ hfresh]
      simp only [List.nodup_append, List.nodup_cons, List.nodup_nil]
      refine ⟨h3, ⟨by simp, trivial⟩, ?_⟩
      intro a ha hb
      rw [List.mem_singleton.mp hb] at ha
      exact hfresh ha

theorem inv_sendMessage {st : MState} {t : Nat} {sid : SId} {content : List Char}
    {st2 : MState} (h : Inv st) (hc : sendMessage t sid content st = .ok st2) : Inv st2 := by
  unfold sendMessage at hc
  cases hg : mapGet st.processes sid with
  | none =>
    simp only [hg] at hc
    exact Except.noConfusion hc
  | some session =>
    simp only [hg] at hc
    by_cases hs : session.status = statusActive
    · rw [if_pos hs] at hc
      simp only [Except.ok.injEq] at hc
      subst hc
      exact invp_set_existing _ _ _ h sid session _ hg (Or.inl rfl) rfl
    · rw [if_neg hs] at hc
      cases hc

theorem inv_killSession (t : Nat) (sid : SId) (st : MState) (h : Inv st) :
    Inv (killSession t sid st) := by
  unfold killSession
  cases hg : mapGet st.processes sid with
  | none => exact h
  | some session =>
    exact invp_del _ _ _
      (invp_set_existing _ _ _ h sid session { session with status := statusCompleted }
        hg (Or.inr (Or.inr (Or.inl rfl))) rfl) sid

theorem inv_handleSessionCompletion (t : Nat) (sid : SId) (st : MState) (h : Inv st) :
    Inv (handleSessionCompletion t sid st) := by
  unfold handleSessionCompletion
  cases hg : mapGet st.processes sid with
  | none => exact h
  | some session =>
    exact invp_erase_to _ _ _
      (invp_set_existing _ _ _ h sid session { session with status := statusCompleted }
        hg (Or.inr (Or.inr (Or.inl rfl))) rfl) sid

theorem inv_touchActivity (t : Nat) (sid : SId) (st : MState) (h : Inv st) :
    Inv (touchActivity t sid st) := by
  unfold touchActivity
  cases hg : mapGet st.processes sid with
  | none => exact h
  | some s2 => exact invp_set_existing _ _ _ h sid s2 _ hg (Or.inl rfl) rfl

theorem inv_emitEvent (e : Event) (st : MState) (h : Inv st) : Inv (emitEvent e st) := h

theorem inv_handleClaudeMessage (t : Nat) (sid : SId) (msg : ClaudeMsg) (st : MState)
    (h : Inv st) : Inv (handleClaudeMessage t sid msg st) := by
  unfold handleClaudeMessage
  cases hg : mapGet st.processes sid with
  | none => exact h
  | some session =>
    apply inv_emitEvent
    apply inv_touchActivity
    have hmid : Inv { st with
        processes := mapSet st.processes sid (initUpdate msg session),
        timeouts := toArm (st.timeouts.erase sid) sid } := by
      have hstat : (initUpdate msg session).status = session.status := by
        unfold initUpdate
        split <;> rfl
      have hweb : (initUpdate msg session).webSessionId = session.webSessionId := by
        unfold initUpdate
        split <;> rfl
      have hA := invp_set_existing _ _ _ h sid session _ hg (Or.inl hstat) hweb
      have hB := invp_rearm _ st.timeouts _ hA sid (by rw [mapGet_set_self]; simp)
      exact hB
    by_cases hres : msg.mtype = "result".toList
    · rw [if_pos hres]
      exact inv_handleSessionCompletion t sid _ hmid
    · rw [if_neg hres]
      exact hmid

theorem inv_handleProcessExit (t : Nat) (sid : SId) (code : Option Int) (st : MState)
    (h : Inv st) : Inv (handleProcessExit t sid code st) := by
  unfold handleProcessExit
  cases hg : mapGet st.processes sid with
  | none => exact h
  | some session =>
    have hok : statusOk (if code = some 0 then statusCompleted else statusCrashed) := by
      by_cases hc : code = some 0
      · rw [if_pos hc]; exact Or.inr (Or.inl rfl)
      · rw [if_neg hc]; exact Or.inr (Or.inr rfl)
    exact invp_del _ _ _
      (invp_set_existing _ _ _ h sid session
        { session with status := if code = some 0 then statusCompleted else statusCrashed }
        hg (Or.inr hok) rfl) sid

theorem inv_handleProcessError (t : Nat) (sid : SId) (e : List Char) (st : MState)
    (h : Inv st) : Inv (handleProcessError t sid e st) := by
  unfold handleProcessError
  cases hg : mapGet st.processes sid with
  | none => exact h
  | some session =>
    exact invp_set_existing _ _ _ h sid session { session with status := statusCrashed }
      hg (Or.inr (Or.inr (Or.inr rfl))) rfl

theorem inv_fireWatchdog (t : Nat) (sid : SId) (st : MState) (h : Inv st) :
    Inv (fireWatchdog t sid st) := by
  unfold fireWatchdog handleIncompleteCompletion
  exact inv_handleClaudeMessage t sid fakeResultMessage _ (invp_erase_to _ _ _ h sid)

theorem inv_step {st st2 : MState} (h : Inv st) (hs : Step st st2) : Inv st2 := by
  cases hs with
  | createOk t cfg m st2x hc => exact inv_createSession h hc
  | sendOk t sid content st2x hc => exact inv_sendMessage h hc
  | kill t sid => exact inv_killSession t sid st h
  | claudeMsg t sid msg => exact inv_handleClaudeMessage t sid msg st h
  | procExit t sid code => exact inv_handleProcessExit t sid code st h
  | procErr t sid e => exact inv_handleProcessError t sid e st h
  | stderrData t sid e => exact h
  | watchdog t sid hmem => exact inv_fireWatchdog t sid st h

theorem reachable_inv {st : MState} (h : Reachable st) : Inv st := by
  induction h with
  | init =>
    refine ⟨?_, ?_, ?_, ?_⟩ <;> simp [initState, InvP]
  | step hr hs ih => exact inv_step ih hs

/-- Terminal events for a session: `session-ended` (kill),
`process-exit`, `session-completed`. -/
def countTerminalEvents (sid : SId) (evs : List Event) : Nat :=
  (evs.filter (fun e => decide (e.sessionId = sid ∧
    (e.name = EvName.sessionEnded ∨ e.name = EvName.processExit ∨
      e.name = EvName.sessionCompleted)))).length

/-- A concrete launch configuration (the caller asks for session id 7). -/
def cfg0 : Config :=
  { sessionId := 7, userId := "dev-user".toList, projectPath := "wd".toList,
    modelName := "claude-sonnet-4-20250514".toList }

/-- A plain terminal `result` stream message. -/
def resultMsg : ClaudeMsg :=
  { mtype := "result".toList, subtype := none, sessionIdField := none,
    message := none, metaIncomplete := false, metaReason := none }

/-- The mapping created by `createSession 0 cfg0 initState`. -/
def m1 : SessionMapping :=
  { webSessionId := 0, claudeSessionId := [], pid := 1, status := statusActive,
    createdAt := 0, lastActivity := 0, config := cfg0, messageCount := 0 }

/-- The supervisor state after one `createSession` on a fresh manager. -/
def st1 : MState :=
  { processes := [(0, m1)], timeouts := [0], handlers := [0], nextSessionId := 1,
    nextPid := 2,
    events := [⟨EvName.sessionCreated, EvType.status, 0, EventData.statusD statusStarting, 0⟩],
    stdinWrites := [], kills := [] }

theorem createSession_st1 : createSession 0 cfg0 initState = .ok (m1, st1) := rfl

/-- A non-terminal stream message (an assistant turn). -/
def assistantMsg : ClaudeMsg :=
  { mtype := "assistant".toList, subtype := none, sessionIdField := none,
    message := some { role := "assistant".toList, textItems := ["hi".toList] },
    metaIncomplete := false, metaReason := none }

/-- C3 counterexample: session 0 reaches the terminal status `completed`
via a `result` frame, yet a second `result` frame is still accepted for
it — the supervisor emits a second `session-completed` terminal event
and another `claude-message` frame event (two fresh events), because
`handleClaudeMessage` never checks the mapping's status and completion
does not remove the mapping. -/
theorem terminal_status_accepts_more_frames :
    (mapGet (handleClaudeMessage 1 0 resultMsg st1).processes 0).map SessionMapping.status
        = some statusCompleted ∧
    countTerminalEvents 0
        (handleClaudeMessage 2 0 resultMsg (handleClaudeMessage 1 0 resultMsg st1)).events
      = 2 ∧
    (handleClaudeMessage 2 0 resultMsg (handleClaudeMessage 1 0 resultMsg st1)).events.length
      = (handleClaudeMessage 1 0 resultMsg st1).events.length + 2 ∧
    0 ∈ (handleClaudeMessage 2 0 assistantMsg (handleClaudeMessage 1 0 resultMsg st1)).timeouts :=
  by decide

theorem handleClaudeMessage_of_some (t : Nat) (sid : SId) (msg : ClaudeMsg) (st : MState)
    (m : SessionMapping) (hg : mapGet st.processes sid = some m) :
    handleClaudeMessage t sid msg st =
      emitEvent ⟨EvName.claudeMessage, EvType.message, sid, EventData.msgD msg, t⟩
        (touchActivity t sid
          ((if msg.mtype = "result".toList then handleSessionCompletion t sid else id)
            { st with processes := mapSet st.processes sid (initUpdate msg m),
                      timeouts := toArm (st.timeouts.erase sid) sid })) := by
  unfold handleClaudeMessage
  rw [hg]

theorem touchActivity_events (t : Nat) (sid : SId) (st : MState) :
    (touchActivity t sid st).events = st.events := by
  unfold touchActivity
  cases mapGet st.processes sid <;> rfl

theorem handleSessionCompletion_events (t : Nat) (sid : SId) (st : MState) :
    (handleSessionCompletion t sid st).events = st.events ∨
    (handleSessionCompletion t sid st).events = st.events ++
      [⟨EvName.sessionCompleted, EvType.completion, sid, EventData.statusD statusCompleted, t⟩] := by
  unfold handleSessionCompletion
  cases mapGet st.processes sid with
  | none => exact Or.inl rfl
  | some session => exact Or.inr rfl

/-- C3 amended: in every reachable state, every stored status is
`active`, `completed` or `crashed` (`starting`/`processing` are never
stored), and terminal statuses are not enforced: for any mapping still
in the table — whatever its status — `handleClaudeMessage` accepts a
further frame and re-emits it as a `claude-message` event (possibly
after another terminal `session-completed` event).  Only removal of the
mapping (`killSession` / process exit) stops acceptance. -/
theorem status_machine_amended (st : MState) (h : Reachable st) :
    (∀ p ∈ st.processes, p.2.status = statusActive ∨ p.2.status = statusCompleted ∨
        p.2.status = statusCrashed) ∧
    (∀ (t : Nat) (sid : SId) (msg : ClaudeMsg) (m : SessionMapping),
      mapGet st.processes sid = some m →
      ∃ mid, (handleClaudeMessage t sid msg st).events
        = st.events ++ mid ++
            [⟨EvName.claudeMessage, EvType.message, sid, EventData.msgD msg, t⟩]) := by
  constructor
  · intro p hp
    exact ((reachable_inv h).1 p hp).1
  · intro t sid msg m hg
    rw [handleClaudeMessage_of_some t sid msg st m hg]
    by_cases hres : msg.mtype = "result".toList
    · rcases handleSessionCompletion_events t sid
          { st with processes := mapSet st.processes sid (initUpdate msg m),
                    timeouts := toArm (st.timeouts.erase sid) sid } with he | he
      · refine ⟨[], ?_⟩
        simp only [emitEvent, if_pos hres, touchActivity_events, he]
        simp
      · refine ⟨[⟨EvName.sessionCompleted, EvType.completion, sid,
            EventData.statusD statusCompleted, t⟩], ?_⟩
        simp only [emitEvent, if_pos hres, touchActivity_events, he]
    · refine ⟨[], ?_⟩
      simp only [emitEvent, if_neg hres, id, touchActivity_events]
      simp

theorem status_machine_amended_witness :
    Reachable st1 ∧
    ((∀ p ∈ st1.processes, p.2.status = statusActive ∨ p.2.status = statusCompleted ∨
        p.2.status = statusCrashed) ∧
     (∀ (t : Nat) (sid : SId) (msg : ClaudeMsg) (m : SessionMapping),
       mapGet st1.processes sid = some m →
       ∃ mid, (handleClaudeMessage t sid msg st1).events
         = st1.events ++ mid ++
             [⟨EvName.claudeMessage, EvType.message, sid, EventData.msgD msg, t⟩])) :=
  ⟨Reachable.step Reachable.init
      (Step.createOk initState 0 cfg0 m1 st1 createSession_st1),
    status_machine_amended st1 (Reachable.step Reachable.init
      (Step.createOk initState 0 cfg0 m1 st1 createSession_st1))⟩

theorem initUpdate_fake (s : SessionMapping) : initUpdate fakeResultMessage s = s := by
  unfold initUpdate
  rw [if_neg]
  intro hcon
  exact absurd hcon.1 (by decide)

theorem handleSessionCompletion_of_some (t : Nat) (sid : SId) (st : MState)
    (m : SessionMapping) (hg : mapGet st.processes sid = some m) :
    handleSessionCompletion t sid st = { st with
      processes := mapSet st.processes sid { m with status := statusCompleted },
      timeouts := st.timeouts.erase sid,
      events := st.events ++
        [⟨EvName.sessionCompleted, EvType.completion, sid,
          EventData.statusD statusCompleted, t⟩] } := by
  unfold handleSessionCompletion
  rw [hg]

theorem touchActivity_of_some (t : Nat) (sid : SId) (st : MState)
    (m : SessionMapping) (hg : mapGet st.processes sid = some m) :
    touchActivity t sid st =
      { st with processes := mapSet st.processes sid { m with lastActivity := t } } := by
  unfold touchActivity
  rw [hg]

/-- C4: in any reachable state, if a session's completion watchdog is
armed (it was armed at `createSession` and re-armed by each frame; it
stays armed exactly while a quiet period is running) and it fires, the
supervisor synthesizes exactly one terminal frame — a `claude-message`
event carrying a `result` tagged `incomplete: true` with machine-readable
reason `timeout_completion_bug`, delivered through the normal frame
path — plus one `session-completed` event; the session's status becomes
`completed`; and the watchdog ends up disarmed, so the synthetic frame
cannot be produced again for the same quiet period. -/
theorem watchdog_fires_once (st : MState) (t : Nat) (sid : SId)
    (h : Reachable st) (harm : sid ∈ st.timeouts) :
    (∃ m2, mapGet (fireWatchdog t sid st).processes sid = some m2 ∧
      m2.status = statusCompleted ∧ m2.lastActivity = t) ∧
    sid ∉ (fireWatchdog t sid st).timeouts ∧
    (fireWatchdog t sid st).events = st.events ++
      [⟨EvName.sessionCompleted, EvType.completion, sid,
          EventData.statusD statusCompleted, t⟩,
       ⟨EvName.claudeMessage, EvType.message, sid,
          EventData.msgD fakeResultMessage, t⟩] ∧
    fakeResultMessage.metaIncomplete = true ∧
    fakeResultMessage.metaReason = some "timeout_completion_bug".toList := by
  have hInv := reachable_inv h
  cases hg : mapGet st.processes sid with
  | none => exact absurd hg (hInv.2.1 sid harm)
  | some session =>
    have htoNodup : st.timeouts.Nodup := hInv.2.2.2
    have hnm : sid ∉ st.timeouts.erase sid := by
      intro hx
      exact ((List.Nodup.mem_erase_iff htoNodup).mp hx).1 rfl
    have hgE : mapGet ({ st with timeouts := st.timeouts.erase sid } : MState).processes sid
        = some session := hg
    have h1 : fireWatchdog t sid st
        = handleClaudeMessage t sid fakeResultMessage
            { st with timeouts := st.timeouts.erase sid } := rfl
    rw [h1, handleClaudeMessage_of_some t sid fakeResultMessage _ session hgE,
      if_pos (show fakeResultMessage.mtype = "result".toList from rfl),
      initUpdate_fake]
    -- the intermediate state fed to completion handling
    have hmidProc : ({ st with timeouts := st.timeouts.erase sid } : MState).processes
        = st.processes := rfl
    have hmidTos : (({ st with timeouts := st.timeouts.erase sid } : MState).timeouts).erase sid
        = st.timeouts.erase sid := by
      dsimp only
      rw [List.erase_of_not_mem hnm]
    have harm2 : toArm ((({ st with timeouts := st.timeouts.erase sid } : MState).timeouts).erase sid) sid
        = st.timeouts.erase sid ++ [sid] := by
      rw [hmidTos]
      unfold toArm
      rw [if_neg hnm]
    rw [hmidProc, harm2]
    have hgA : mapGet (mapSet st.processes sid session) sid = some session :=
      mapGet_set_self _ _ _
    rw [handleSessionCompletion_of_some t sid _ session hgA]
    dsimp only
    have herase2 : (st.timeouts.erase sid ++ [sid]).erase sid = st.timeouts.erase sid := by
      rw [List.erase_append_right _ hnm, List.erase_cons_head, List.append_nil]
    rw [herase2]
    have hgB : mapGet (mapSet (mapSet st.processes sid session) sid
        { session with status := statusCompleted }) sid
        = some { session with status := statusCompleted } := mapGet_set_self _ _ _
    rw [touchActivity_of_some t sid _ _ hgB]
    dsimp only [emitEvent]
    refine ⟨⟨{ session with status := statusCompleted, lastActivity := t },
      mapGet_set_self _ _ _, rfl, rfl⟩, hnm, ?_, rfl, rfl⟩
    simp

theorem watchdog_fires_once_witness :
    Reachable st1 ∧ 0 ∈ st1.timeouts ∧
    ((∃ m2, mapGet (fireWatchdog 30 0 st1).processes 0 = some m2 ∧
        m2.status = statusCompleted ∧ m2.lastActivity = 30) ∧
     0 ∉ (fireWatchdog 30 0 st1).timeouts ∧
     (fireWatchdog 30 0 st1).events = st1.events ++
       [⟨EvName.sessionCompleted, EvType.completion, 0,
           EventData.statusD statusCompleted, 30⟩,
        ⟨EvName.claudeMessage, EvType.message, 0,
           EventData.msgD fakeResultMessage, 30⟩] ∧
     fakeResultMessage.metaIncomplete = true ∧
     fakeResultMessage.metaReason = some "timeout_completion_bug".toList) :=
  ⟨Reachable.step Reachable.init
      (Step.createOk initState 0 cfg0 m1 st1 createSession_st1),
   by decide,
   watchdog_fires_once st1 30 0
     (Reachable.step Reachable.init
       (Step.createOk initState 0 cfg0 m1 st1 createSession_st1))
     (by decide)⟩

/-- C5 counterexample: on a fresh manager, below the ceiling and with an
unused id, `createSession` stores the new mapping with status `active`,
not `starting` (only the emitted status event's payload says
`starting`). -/
theorem createSession_stores_active_not_starting :
    (createSession 0 cfg0 initState).toOption.map (fun p => p.1.status)
      = some statusActive ∧
    statusActive ≠ statusStarting ∧
    (mapGet st1.processes 0).map SessionMapping.status = some statusActive := by decide

theorem self_mem_toArm (l : List SId) (k : SId) : k ∈ toArm l k := by
  unfold toArm
  by_cases h : k ∈ l
  · rwa [if_pos h]
  · rw [if_neg h]
    simp

/-- C5 amended: for every reachable state below the concurrency ceiling
and every config, `createSession` succeeds synchronously, returning the
new mapping: it mints a previously unused web session id, spawns a fresh
process (new pid), stores the mapping with status `active` (while the
emitted `session-created` event's payload reports `starting`), arms the
completion watchdog, and registers the process handlers. -/
theorem createSession_amended (st : MState) (t : Nat) (cfg : Config)
    (h : Reachable st) (hcap : st.processes.length < MAX_CONCURRENT_SESSIONS) :
    ∃ m st2, createSession t cfg st = .ok (m, st2) ∧
      m.webSessionId = st.nextSessionId ∧
      mapGet st.processes m.webSessionId = none ∧
      m.status = statusActive ∧
      mapGet st2.processes m.webSessionId = some m ∧
      m.webSessionId ∈ st2.timeouts ∧
      m.webSessionId ∈ st2.handlers ∧
      m.pid = st.nextPid ∧ st2.nextPid = st.nextPid + 1 ∧
      st2.events = st.events ++
        [⟨EvName.sessionCreated, EvType.status, m.webSessionId,
          EventData.statusD statusStarting, t⟩] := by
  have hnle : ¬ MAX_CONCURRENT_SESSIONS ≤ st.processes.length := by omega
  have hc : createSession t cfg st = .ok
      ({ webSessionId := st.nextSessionId, claudeSessionId := [], pid := st.nextPid,
         status := statusActive, createdAt := t, lastActivity := t,
         config := cfg, messageCount := 0 },
       { st with
          processes := mapSet st.processes st.nextSessionId
            { webSessionId := st.nextSessionId, claudeSessionId := [], pid := st.nextPid,
              status := statusActive, createdAt := t, lastActivity := t,
              config := cfg, messageCount := 0 },
          handlers := st.handlers ++ [st.nextSessionId],
          timeouts := toArm st.timeouts st.nextSessionId,
          nextSessionId := st.nextSessionId + 1,
          nextPid := st.nextPid + 1,
          events := st.events ++
            [⟨EvName.sessionCreated, EvType.status, st.nextSessionId,
              EventData.statusD statusStarting, t⟩] }) := by
    unfold createSession
    rw [if_neg hnle]
  refine ⟨_, _, hc, rfl, ?_, rfl, mapGet_set_self _ _ _, self_mem_toArm _ _, ?_, rfl, rfl, rfl⟩
  · apply mapGet_none_of_not_mem
    intro hmem
    obtain ⟨p, hp, hpe⟩ := List.mem_map.mp hmem
    have hlt := ((reachable_inv h).1 p hp).2.2
    rw [hpe] at hlt
    exact Nat.lt_irrefl _ hlt
  · simp

theorem createSession_amended_witness :
    Reachable initState ∧ initState.processes.length < MAX_CONCURRENT_SESSIONS ∧
    (∃ m st2, createSession 0 cfg0 initState = .ok (m, st2) ∧
      m.webSessionId = initState.nextSessionId ∧
      mapGet initState.processes m.webSessionId = none ∧
      m.status = statusActive ∧
      mapGet st2.processes m.webSessionId = some m ∧
      m.webSessionId ∈ st2.timeouts ∧
      m.webSessionId ∈ st2.handlers ∧
      m.pid = initState.nextPid ∧ st2.nextPid = initState.nextPid + 1 ∧
      st2.events = initState.events ++
        [⟨EvName.sessionCreated, EvType.status, m.webSessionId,
          EventData.statusD statusStarting, 0⟩]) :=
  ⟨Reachable.init, by decide,
    createSession_amended initState 0 cfg0 Reachable.init (by decide)⟩

/-- The synthetic user-message echo event emitted by `sendMessage`. -/
def echoEvent (sid : SId) (content : List Char) (t : Nat) : Event :=
  ⟨EvName.messageSent, EvType.message, sid,
    EventData.msgD { mtype := "user".toList, subtype := none, sessionIdField := none,
                     message := some { role := "user".toList, textItems := [content] },
                     metaIncomplete := false, metaReason := none }, t⟩

/-- The state actually resulting from a `sendMessage` call (a thrown
error leaves the supervisor untouched). -/
def sendMessageR (t : Nat) (sid : SId) (content : List Char) (st : MState) : MState :=
  match sendMessage t sid content st with
  | .ok st2 => st2
  | .error _ => st

theorem sendMessage_of_active (t : Nat) (sid : SId) (content : List Char) (st : MState)
    (m : SessionMapping) (hg : mapGet st.processes sid = some m)
    (hs : m.status = statusActive) :
    sendMessage t sid content st = .ok { st with
      processes := mapSet st.processes sid
        { m with lastActivity := t, messageCount := m.messageCount + 1 },
      stdinWrites := st.stdinWrites ++ [(m.pid, content ++ ['\n'])],
      events := st.events ++ [echoEvent sid content t] } := by
  unfold sendMessage
  rw [hg]
  show (if m.status = statusActive then _ else _) = _
  rw [if_pos hs]
  rfl

/-- C6: in every state the supervisor can be in, `sendMessage(id, text)`
succeeds exactly when a mapping for `id` exists and its status is
`'active'` or `'processing'`: the guard accepts only `'active'`, and
`'processing'` — absent from the declared `SessionMapping.status`
union — is never assigned by any code path, so the disjunct adds
nothing.  On success it writes the raw text terminated by a newline to
the process stdin, refreshes `lastActivityAt`, increments
`messageCount` by exactly one, and leaves the status unchanged; for an
unknown id it throws not-found and attempts no process interaction (the
state, stdin writes included, is untouched). -/
theorem sendMessage_succeeds_iff_active_or_processing
    (st : MState) (h : Reachable st) (t : Nat) (sid : SId) (content : List Char) :
    ((∃ st2, sendMessage t sid content st = .ok st2) ↔
      (∃ m, mapGet st.processes sid = some m ∧
        (m.status = statusActive ∨ m.status = statusProcessing))) ∧
    (∀ m, mapGet st.processes sid = some m → m.status = statusActive →
      ∃ st2, sendMessage t sid content st = .ok st2 ∧
        st2.stdinWrites = st.stdinWrites ++ [(m.pid, content ++ ['\n'])] ∧
        mapGet st2.processes sid
          = some { m with lastActivity := t, messageCount := m.messageCount + 1 } ∧
        (mapGet st2.processes sid).map SessionMapping.status = some m.status ∧
        st2.events = st.events ++ [echoEvent sid content t]) ∧
    (mapGet st.processes sid = none →
      sendMessage t sid content st = .error (PMErr.notFound sid) ∧
      sendMessageR t sid content st = st) := by
  refine ⟨?_, ?_, ?_⟩
  · constructor
    · rintro ⟨st2, hok⟩
      cases hg : mapGet st.processes sid with
      | none =>
        unfold sendMessage at hok
        simp only [hg] at hok
        exact Except.noConfusion hok
      | some m =>
        by_cases hs : m.status = statusActive
        · exact ⟨m, rfl, Or.inl hs⟩
        · unfold sendMessage at hok
          simp only [hg] at hok
          rw [if_neg hs] at hok
          exact Except.noConfusion hok
    · rintro ⟨m, hg, hs | hs⟩
      · exact ⟨_, sendMessage_of_active t sid content st m hg hs⟩
      · have hok := ((reachable_inv h).1 (sid, m) (mapGet_some_mem _ _ _ hg)).1
        unfold statusOk at hok
        rw [hs] at hok
        rcases hok with h1 | h1 | h1 <;> exact absurd h1 (by decide)
  · intro m hg hs
    refine ⟨_, sendMessage_of_active t sid content st m hg hs, rfl, ?_, ?_, rfl⟩
    · exact mapGet_set_self _ _ _
    · rw [mapGet_set_self]
      simp [hs]
  · intro hg
    have he : sendMessage t sid content st = .error (PMErr.notFound sid) := by
      unfold sendMessage
      rw [hg]
    exact ⟨he, by unfold sendMessageR; rw [he]⟩

theorem sendMessage_succeeds_iff_active_or_processing_witness :
    Reachable st1 ∧
    (((∃ st2, sendMessage 1 0 "hi".toList st1 = .ok st2) ↔
       (∃ m, mapGet st1.processes 0 = some m ∧
         (m.status = statusActive ∨ m.status = statusProcessing))) ∧
     (∀ m, mapGet st1.processes 0 = some m → m.status = statusActive →
       ∃ st2, sendMessage 1 0 "hi".toList st1 = .ok st2 ∧
         st2.stdinWrites = st1.stdinWrites ++ [(m.pid, "hi".toList ++ ['\n'])] ∧
         mapGet st2.processes 0
           = some { m with lastActivity := 1, messageCount := m.messageCount + 1 } ∧
         (mapGet st2.processes 0).map SessionMapping.status = some m.status ∧
         st2.events = st1.events ++ [echoEvent 0 "hi".toList 1]) ∧
     (mapGet st1.processes 0 = none →
       sendMessage 1 0 "hi".toList st1 = .error (PMErr.notFound 0) ∧
       sendMessageR 1 0 "hi".toList st1 = st1)) :=
  ⟨Reachable.step Reachable.init
     (Step.createOk initState 0 cfg0 m1 st1 createSession_st1),
   sendMessage_succeeds_iff_active_or_processing st1
     (Reachable.step Reachable.init
       (Step.createOk initState 0 cfg0 m1 st1 createSession_st1)) 1 0 "hi".toList⟩

/-- The session table has duplicate-free keys (true in every reachable
state, by `reachable_inv`). -/
def keysNodup (st : MState) : Prop := (st.processes.map Prod.fst).Nodup

theorem killSession_of_none (t : Nat) (sid : SId) (st : MState)
    (hg : mapGet st.processes sid = none) : killSession t sid st = st := by
  unfold killSession
  rw [hg]

theorem handleProcessExit_of_none (t : Nat) (sid : SId) (code : Option Int) (st : MState)
    (hg : mapGet st.processes sid = none) : handleProcessExit t sid code st = st := by
  unfold handleProcessExit
  rw [hg]

theorem mapGet_del_set_self (m : List (SId × SessionMapping)) (k : SId) (v : SessionMapping)
    (hk : k ∈ m.map Prod.fst) (h : (m.map Prod.fst).Nodup) :
    mapGet (mapDel (mapSet m k v) k) k = none := by
  apply mapGet_del_self
  rw [keys_mapSet_of_mem _ _ _ hk]
  exact h

theorem killSession_lookup_gone (t : Nat) (sid : SId) (st : MState)
    (m : SessionMapping) (hg : mapGet st.processes sid = some m) (h : keysNodup st) :
    mapGet (killSession t sid st).processes sid = none := by
  unfold killSession
  rw [hg]
  exact mapGet_del_set_self _ _ _ (key_mem_of_mapGet_some _ _ _ hg) h

theorem handleProcessExit_lookup_gone (t : Nat) (sid : SId) (code : Option Int) (st : MState)
    (m : SessionMapping) (hg : mapGet st.processes sid = some m) (h : keysNodup st) :
    mapGet (handleProcessExit t sid code st).processes sid = none := by
  unfold handleProcessExit
  rw [hg]
  exact mapGet_del_set_self _ _ _ (key_mem_of_mapGet_some _ _ _ hg) h

theorem countTerm_append_one (sid : SId) (evs : List Event) (e : Event) :
    countTerminalEvents sid (evs ++ [e]) ≤ countTerminalEvents sid evs + 1 := by
  unfold countTerminalEvents
  rw [List.filter_append, List.length_append]
  have hone : (List.filter (fun e => decide (e.sessionId = sid ∧
      (e.name = EvName.sessionEnded ∨ e.name = EvName.processExit ∨
        e.name = EvName.sessionCompleted))) [e]).length ≤ 1 := by
    simp only [List.filter]
    split <;> simp
  omega

theorem killSession_events (t : Nat) (sid : SId) (st : MState) :
    (killSession t sid st).events = st.events ∨
    (killSession t sid st).events = st.events ++
      [⟨EvName.sessionEnded, EvType.status, sid, EventData.statusD statusCompleted, t⟩] := by
  unfold killSession
  cases mapGet st.processes sid with
  | none => exact Or.inl rfl
  | some session => exact Or.inr rfl

theorem handleProcessExit_events (t : Nat) (sid : SId) (code : Option Int) (st : MState) :
    (handleProcessExit t sid code st).events = st.events ∨
    ∃ e, (handleProcessExit t sid code st).events = st.events ++ [e] := by
  unfold handleProcessExit
  cases mapGet st.processes sid with
  | none => exact Or.inl rfl
  | some session => exact Or.inr ⟨_, rfl⟩

/-- C7: `killSession` is total (it never throws, by construction), and
against the same session it is idempotent with, and mutually exclusive
with, the OS-exit path: whichever of the two runs first removes the
mapping and the other is a strict no-op (the state is literally
unchanged); each single run emits at most one terminal event, so the
racing pair emits at most one terminal event in total. -/
theorem kill_exit_idempotent (st : MState) (t1 t2 : Nat) (sid : SId) (code : Option Int)
    (h : keysNodup st) :
    killSession t2 sid (killSession t1 sid st) = killSession t1 sid st ∧
    handleProcessExit t2 sid code (killSession t1 sid st) = killSession t1 sid st ∧
    killSession t2 sid (handleProcessExit t1 sid code st) = handleProcessExit t1 sid code st ∧
    countTerminalEvents sid (killSession t1 sid st).events
      ≤ countTerminalEvents sid st.events + 1 ∧
    countTerminalEvents sid (handleProcessExit t1 sid code st).events
      ≤ countTerminalEvents sid st.events + 1 := by
  refine ⟨?_, ?_, ?_, ?_, ?_⟩
  · cases hg : mapGet st.processes sid with
    | none => rw [killSession_of_none t1 sid st hg, killSession_of_none t2 sid st hg]
    | some m => exact killSession_of_none t2 sid _ (killSession_lookup_gone t1 sid st m hg h)
  · cases hg : mapGet st.processes sid with
    | none =>
      rw [killSession_of_none t1 sid st hg, handleProcessExit_of_none t2 sid code st hg]
    | some m =>
      exact handleProcessExit_of_none t2 sid code _ (killSession_lookup_gone t1 sid st m hg h)
  · cases hg : mapGet st.processes sid with
    | none =>
      rw [handleProcessExit_of_none t1 sid code st hg, killSession_of_none t2 sid st hg]
    | some m =>
      exact killSession_of_none t2 sid _ (handleProcessExit_lookup_gone t1 sid code st m hg h)
  · rcases killSession_events t1 sid st with he | he
    · rw [he]; omega
    · rw [he]; exact countTerm_append_one sid st.events _
  · rcases handleProcessExit_events t1 sid code st with he | ⟨e, he⟩
    · rw [he]; omega
    · rw [he]; exact countTerm_append_one sid st.events e

theorem kill_exit_idempotent_witness :
    keysNodup st1 ∧
    (killSession 2 0 (killSession 1 0 st1) = killSession 1 0 st1 ∧
     handleProcessExit 2 0 (some 0) (killSession 1 0 st1) = killSession 1 0 st1 ∧
     killSession 2 0 (handleProcessExit 1 0 (some 0) st1)
       = handleProcessExit 1 0 (some 0) st1 ∧
     countTerminalEvents 0 (killSession 1 0 st1).events
       ≤ countTerminalEvents 0 st1.events + 1 ∧
     countTerminalEvents 0 (handleProcessExit 1 0 (some 0) st1).events
       ≤ countTerminalEvents 0 st1.events + 1) :=
  ⟨by unfold keysNodup; decide,
   kill_exit_idempotent st1 1 2 0 (some 0) (by unfold keysNodup; decide)⟩

end PM

namespace GW

/-- One client connection (`WebSocketConnection`): identity and the
subscription set.  Modelled connections are live sockets (a closed
socket is removed from the table by its close handler); `lastPing` and
the staleness sweep are not touched by any claim and are elided. -/
structure WSConn where
  connId : Nat
  userId : List Char
  sessionIds : List PM.SId
deriving DecidableEq

/-- Server→client frame types (`WSServerMessage['type']`). -/
inductive WSMsgType where
  | message
  | error
  | status
  | pong
  | session_end
deriving DecidableEq

/-- One server→client frame: type, session id (`none` models the empty
string used for connection-scoped frames), and the optional `message`,
`error` and `status` payload fields. -/
structure WSMsg where
  wtype : WSMsgType
  sessionId : Option PM.SId
  message : Option PM.EventData
  errText : Option (List Char)
  statusStr : Option (List Char)
deriving DecidableEq

/-- Client→server frame types (`WSClientMessage['type']`). -/
inductive WSClientType where
  | message
  | slash_command
  | stop
  | ping
deriving DecidableEq

/-- One client→server frame; `none` fields model absent/empty values. -/
structure WSClientMsg where
  ctype : WSClientType
  sessionId : Option PM.SId
  content : Option (List Char)
  command : Option (List Char)
  args : Option (List (List Char))
deriving DecidableEq

/-- Gateway state: the connection table, the frames sent to clients (an
outbox trace of (connId, frame)), and the owned process manager. -/
structure GWState where
  connections : List WSConn
  outbox : List (Nat × WSMsg)
  pm : PM.MState
deriving DecidableEq

/-- `sendMessage(ws, msg)`: deliver one frame to one connection. -/
def sendWs (cid : Nat) (m : WSMsg) (gst : GWState) : GWState :=
  { gst with outbox := gst.outbox ++ [(cid, m)] }

/-- `sendError`. -/
def sendError (cid : Nat) (sid : Option PM.SId) (err : List Char) (gst : GWState) : GWState :=
  sendWs cid ⟨.error, sid, none, some err, none⟩ gst

/-- `broadcastToSession`: deliver to every connection whose subscription
set contains the session id, in table order. -/
def broadcastToSession (sid : PM.SId) (m : WSMsg) (gst : GWState) : GWState :=
  let targets :=
    (gst.connections.filter (fun c => decide (sid ∈ c.sessionIds))).map (fun c => (c.connId, m))
  { gst with outbox := gst.outbox ++ targets }

/-- The `error: event.data as string` cast used by the process-error
listener. -/
def errDataText : PM.EventData → Option (List Char)
  | .errD s => some s
  | _ => none

/-- The supervisor-event listeners registered in `setupEventHandlers`:
`claude-message`, `session-created`, `session-completed` and
`process-error` are fanned out; every other emitter event (notably
`message-sent`, `session-ended` and `process-exit`) has no listener. -/
def dispatchSupervisorEvent (e : PM.Event) (gst : GWState) : GWState :=
  match e.name with
  | .claudeMessage =>
    broadcastToSession e.sessionId ⟨.message, some e.sessionId, some e.data, none, none⟩ gst
  | .sessionCreated =>
    broadcastToSession e.sessionId
      ⟨.status, some e.sessionId, none, none, some "created".toList⟩ gst
  | .sessionCompleted =>
    broadcastToSession e.sessionId
      ⟨.session_end, some e.sessionId, none, none, some "completed".toList⟩ gst
  | .processError =>
    broadcastToSession e.sessionId
      ⟨.error, some e.sessionId, none, errDataText e.data, none⟩ gst
  | _ => gst

/-- Which emitter events have a gateway listener. -/
def hasListener : PM.EvName → Bool
  | .claudeMessage => true
  | .sessionCreated => true
  | .sessionCompleted => true
  | .processError => true
  | _ => false

/-- The frame a listener builds from a supervisor event. -/
def translateEvent (e : PM.Event) : WSMsg :=
  match e.name with
  | .claudeMessage => ⟨.message, some e.sessionId, some e.data, none, none⟩
  | .sessionCreated => ⟨.status, some e.sessionId, none, none, some "created".toList⟩
  | .sessionCompleted => ⟨.session_end, some e.sessionId, none, none, some "completed".toList⟩
  | .processError => ⟨.error, some e.sessionId, none, errDataText e.data, none⟩
  | _ => ⟨.status, none, none, none, none⟩

theorem dispatch_eq (e : PM.Event) (gst : GWState) :
    dispatchSupervisorEvent e gst =
      if hasListener e.name = true
      then broadcastToSession e.sessionId (translateEvent e) gst
      else gst := by
  rcases e with ⟨name, etype, sid, data, ts⟩
  cases name <;> rfl

theorem filter_bcast_none (conns : List WSConn) (sid : PM.SId) (m : WSMsg) (cid : Nat)
    (h : cid ∉ conns.map WSConn.connId) :
    ((conns.filter (fun c => decide (sid ∈ c.sessionIds))).map (fun c => (c.connId, m))).filter
      (fun x => decide (x.1 = cid)) = [] := by
  induction conns with
  | nil => rfl
  | cons c rest ih =>
    simp only [List.map_cons, List.mem_cons] at h
    push_neg at h
    have hne : ¬(c.connId = cid) := Ne.symm h.1
    by_cases hs : sid ∈ c.sessionIds <;>
      simp [List.filter_cons, hs, hne, ih h.2]

theorem filter_bcast (conns : List WSConn) (sid : PM.SId) (m : WSMsg) (conn : WSConn)
    (hnd : (conns.map WSConn.connId).Nodup) (hmem : conn ∈ conns) :
    ((conns.filter (fun c => decide (sid ∈ c.sessionIds))).map (fun c => (c.connId, m))).filter
      (fun x => decide (x.1 = conn.connId))
      = if sid ∈ conn.sessionIds then [(conn.connId, m)] else [] := by
  induction conns with
  | nil => cases hmem
  | cons c rest ih =>
    simp only [List.map_cons, List.nodup_cons] at hnd
    rcases List.mem_cons.mp hmem with rfl | hmem2
    · by_cases hs : sid ∈ conn.sessionIds <;>
        simp [List.filter_cons, hs, filter_bcast_none rest sid m conn.connId hnd.1]
    · have hne : ¬(c.connId = conn.connId) := by
        intro he
        apply hnd.1
        rw [he]
        exact List.mem_map.mpr ⟨conn, hmem2, rfl⟩
      by_cases hs : sid ∈ c.sessionIds <;>
        simp [List.filter_cons, hs, hne, ih hnd.2 hmem2]

/-- C9: whatever supervisor event is dispatched, a connection's
delivered-frame stream changes only if that connection is subscribed to
the event's session: a connection not subscribed to session A never
receives an event of session A, and a subscribed connection receives the
translated frame exactly once (when the event kind has a listener). -/
theorem events_only_to_subscribers (gst : GWState) (e : PM.Event) (conn : WSConn)
    (hnd : (gst.connections.map WSConn.connId).Nodup) (hmem : conn ∈ gst.connections) :
    ((dispatchSupervisorEvent e gst).outbox.filter (fun x => decide (x.1 = conn.connId)))
      = gst.outbox.filter (fun x => decide (x.1 = conn.connId)) ++
        (if e.sessionId ∈ conn.sessionIds ∧ hasListener e.name = true
         then [(conn.connId, translateEvent e)] else []) := by
  rw [dispatch_eq]
  by_cases hl : hasListener e.name = true
  · rw [if_pos hl]
    show (GWState.outbox _).filter _ = _
    unfold broadcastToSession
    dsimp only
    rw [List.filter_append, filter_bcast gst.connections e.sessionId (translateEvent e)
      conn hnd hmem]
    by_cases hs : e.sessionId ∈ conn.sessionIds
    · rw [if_pos hs, if_pos ⟨hs, hl⟩]
    · rw [if_neg hs, if_neg (fun hcon => hs hcon.1)]
  · rw [if_neg hl, if_neg (fun hcon => hl hcon.2)]
    simp

/-- Two connections: connection 1 subscribed to session 0, connection 2
subscribed only to session 5. -/
def connA : WSConn := ⟨1, "userA".toList, [0]⟩
def connB : WSConn := ⟨2, "userB".toList, [5]⟩

def gstAB : GWState := ⟨[connA, connB], [], PM.st1⟩

theorem events_only_to_subscribers_witness :
    (gstAB.connections.map WSConn.connId).Nodup ∧ connB ∈ gstAB.connections ∧
    (((dispatchSupervisorEvent (PM.echoEvent 0 "hi".toList 1) gstAB).outbox.filter
        (fun x => decide (x.1 = connB.connId)))
      = gstAB.outbox.filter (fun x => decide (x.1 = connB.connId)) ++
        (if (PM.echoEvent 0 "hi".toList 1).sessionId ∈ connB.sessionIds ∧
            hasListener (PM.echoEvent 0 "hi".toList 1).name = true
         then [(connB.connId, translateEvent (PM.echoEvent 0 "hi".toList 1))] else [])) :=
  ⟨by decide, by decide,
    events_only_to_subscribers gstAB (PM.echoEvent 0 "hi".toList 1) connB
      (by decide) (by decide)⟩

/-- Add a session id to a connection's subscription set
(`connection.sessionIds.add(...)`). -/
def addSub (conns : List WSConn) (cid : Nat) (sid : PM.SId) : List WSConn :=
  conns.map (fun c =>
    if c.connId = cid then
      { c with sessionIds :=
          if sid ∈ c.sessionIds then c.sessionIds else c.sessionIds ++ [sid] }
    else c)

/-- The default/caller-supplied `ProcessConfig` built by
`handleChatMessage` for an unknown session id: note it carries the
client's `sessionId`.  `process.cwd()` and the auth settings are opaque
constants here. -/
def defaultConfigFor (userId : List Char) (sid : PM.SId) : PM.Config :=
  { sessionId := sid, userId := userId, projectPath := "cwd".toList,
    modelName := "claude-sonnet-4-20250514".toList }

def missingText : List Char := "Missing content or sessionId".toList

def failSendText : List Char := "Failed to send message".toList

/-- `handleChatMessage`: validate content/sessionId; if no mapping
exists for the client's session id, create one (the supervisor keys it
under its own freshly generated id, ignoring `config.sessionId`) and add
the client's id to the subscription set; then forward the content via
`sendMessage(message.sessionId, …)`.  The whole create-and-send sequence
sits in one try/catch whose handler sends an error frame — state changes
made before a throw (the spawned session, the subscription) are kept. -/
def handleChatMessage (t : Nat) (conn : WSConn) (m : WSClientMsg) (gst : GWState) :
    GWState :=
  match m.content, m.sessionId with
  | some content, some sid =>
    if content.isEmpty then sendError conn.connId (some sid) missingText gst
    else
      match PM.mapGet gst.pm.processes sid with
      | some _ =>
        match PM.sendMessage t sid content gst.pm with
        | .ok pm2 => { gst with pm := pm2 }
        | .error _ => sendError conn.connId (some sid) failSendText gst
      | none =>
        match PM.createSession t (defaultConfigFor conn.userId sid) gst.pm with
        | .error _ => sendError conn.connId (some sid) failSendText gst
        | .ok (_, pm1) =>
          match PM.sendMessage t sid content pm1 with
          | .ok pm2 =>
            { gst with pm := pm2, connections := addSub gst.connections conn.connId sid }
          | .error _ =>
            sendError conn.connId (some sid) failSendText
              { gst with pm := pm1, connections := addSub gst.connections conn.connId sid }
  | _, _ => sendError conn.connId m.sessionId missingText gst

/-- A fresh connection with no subscriptions. -/
def conn0 : WSConn := ⟨0, "dev-user".toList, []⟩

/-- A gateway with one connection and a fresh process manager. -/
def gst0 : GWState := ⟨[conn0], [], PM.initState⟩

/-- A client chat frame addressed to (not yet existing) session 7. -/
def chatMsg7 : WSClientMsg := ⟨.message, some 7, some "hi".toList, none, none⟩

/-- C8, evaluated at the failing input: a `message` frame for unknown
session 7 on a fresh gateway.  `createSession` keys the new mapping
under its own freshly generated id 0 and ignores `config.sessionId = 7`,
so the follow-up `sendMessage(7, …)` throws not-found: the gateway sends
the client an error frame, no `message-sent` echo is ever emitted, a
process for the orphaned session 0 is left running, and the connection
ends up subscribed to id 7 — which maps to nothing. -/
theorem gateway_create_then_forward_fails :
    (handleChatMessage 0 conn0 chatMsg7 gst0).pm.processes.map Prod.fst = [0] ∧
    PM.mapGet (handleChatMessage 0 conn0 chatMsg7 gst0).pm.processes 7 = none ∧
    (handleChatMessage 0 conn0 chatMsg7 gst0).outbox
      = [(0, ⟨.error, some 7, none, some failSendText, none⟩)] ∧
    ((handleChatMessage 0 conn0 chatMsg7 gst0).pm.events.filter
       (fun e => decide (e.name = PM.EvName.messageSent))).length = 0 ∧
    (handleChatMessage 0 conn0 chatMsg7 gst0).connections
      = [{ conn0 with sessionIds := [7] }] := by decide

/-- C10 counterexample: with an active session 0 and a connection
subscribed to it, a successful `sendMessage` emits the `message-sent`
echo event — but dispatching that event through the gateway delivers
nothing: the gateway has no `message-sent` listener, so the subscriber
never observes the echo. -/
def gstSub : GWState := ⟨[⟨0, "dev-user".toList, [0]⟩], [], PM.st1⟩

theorem echo_event_not_delivered :
    (∃ st2, PM.sendMessage 1 0 "hi".toList PM.st1 = .ok st2 ∧
       st2.events = PM.st1.events ++ [PM.echoEvent 0 "hi".toList 1]) ∧
    (0 : PM.SId) ∈ (⟨0, "dev-user".toList, [0]⟩ : WSConn).sessionIds ∧
    dispatchSupervisorEvent (PM.echoEvent 0 "hi".toList 1) gstSub = gstSub :=
  ⟨⟨_, rfl, rfl⟩, by decide, by decide⟩

/-- C10 amended: every successful `sendMessage` emits exactly one
`message-sent` event carrying a synthetic user-role message whose text
equals the sent text; but the Gateway registers no listener for
`message-sent` (only `claude-message`, `session-created`,
`session-completed`, `process-error`), so dispatching the echo event
changes no gateway state and no subscriber observes the echo. -/
theorem send_echo_emitted_but_not_forwarded (st : PM.MState) (t : Nat) (sid : PM.SId)
    (content : List Char) (st2 : PM.MState)
    (h : PM.sendMessage t sid content st = .ok st2) :
    st2.events = st.events ++ [PM.echoEvent sid content t] ∧
    (PM.echoEvent sid content t).data
      = PM.EventData.msgD
          { mtype := "user".toList, subtype := none, sessionIdField := none,
            message := some { role := "user".toList, textItems := [content] },
            metaIncomplete := false, metaReason := none } ∧
    hasListener (PM.echoEvent sid content t).name = false ∧
    ∀ gst : GWState, dispatchSupervisorEvent (PM.echoEvent sid content t) gst = gst := by
  refine ⟨?_, rfl, rfl, fun gst => rfl⟩
  unfold PM.sendMessage at h
  cases hg : PM.mapGet st.processes sid with
  | none =>
    simp only [hg] at h
    exact Except.noConfusion h
  | some m =>
    simp only [hg] at h
    by_cases hs : m.status = PM.statusActive
    · rw [if_pos hs] at h
      simp only [Except.ok.injEq] at h
      subst h
      rfl
    · rw [if_neg hs] at h
      exact Except.noConfusion h

/-- The supervisor state after the witness send. -/
def stB : PM.MState :=
  { PM.st1 with
    processes := PM.mapSet PM.st1.processes 0
      { PM.m1 with lastActivity := 1, messageCount := 1 },
    stdinWrites := [(1, "hi".toList ++ ['\n'])],
    events := PM.st1.events ++ [PM.echoEvent 0 "hi".toList 1] }

theorem send_echo_emitted_but_not_forwarded_witness :
    stB.events = PM.st1.events ++ [PM.echoEvent 0 "hi".toList 1] ∧
    (PM.echoEvent 0 "hi".toList 1).data
      = PM.EventData.msgD
          { mtype := "user".toList, subtype := none, sessionIdField := none,
            message := some { role := "user".toList, textItems := ["hi".toList] },
            metaIncomplete := false, metaReason := none } ∧
    hasListener (PM.echoEvent 0 "hi".toList 1).name = false ∧
    dispatchSupervisorEvent (PM.echoEvent 0 "hi".toList 1) gstSub = gstSub :=
  ⟨(send_echo_emitted_but_not_forwarded PM.st1 1 0 "hi".toList stB rfl).1,
   (send_echo_emitted_but_not_forwarded PM.st1 1 0 "hi".toList stB rfl).2.1,
   (send_echo_emitted_but_not_forwarded PM.st1 1 0 "hi".toList stB rfl).2.2.1,
   (send_echo_emitted_but_not_forwarded PM.st1 1 0 "hi".toList stB rfl).2.2.2 gstSub⟩

end GW
